import Mathlib

/-!
Verification of the core algorithms of the problem-solving repository
(Universal Algorithm prototypes).  The definitions below are shallow
embeddings of the JavaScript sources:

* `TaskDecomposer` (js-poc-4/src/core/decomposer.js): decomposition
  normalization, DFS topological ordering (`getSubtasksInOrder`) and greedy
  parallel batching (`getParallelSubtasks`).
* `SolutionSearcher` (the solution-search module): the bounded retry loop
  (`findSolution`), structural validation (`validateSolution`), scoring
  (`calculateSolutionScore`) and best-candidate selection
  (`selectBestSolution`).
* `UniversalAlgorithm` (js-poc-4/src/orchestrator.js): the phase sequence of
  `solve`.

JavaScript strings are modelled by `String`, JavaScript numbers that the code
treats as integers by `Int`, `Set` objects by lists used as sets, thrown
exceptions by `Except`, and the falsy-coalescing operator `x || d` by explicit
helpers (`""` and `0` are falsy in JavaScript).
-/

deriving instance DecidableEq for Except

namespace ProblemSolving

/-- A normalized subtask, as produced by
`TaskDecomposer.processDecompositionResult` (decomposer.js).  The
`description` field may be `none` because `subtask.description ||
subtask.title` is `undefined` when both fields are missing. -/
structure Subtask where
  id : String
  title : String := ""
  description : Option String := none
  priority : String := "medium"
  estimatedComplexity : Int := 5
  dependencies : List String := []
  acceptanceCriteria : List String := []
deriving DecidableEq

/-- Errors thrown by the scheduler.  `circular id` stands for the JavaScript
`Error` whose message is produced by `circularMessage`; `outOfFuel` is an
artifact of the embedding (the JavaScript recursion is unbounded) and is
proved unreachable for the fuel used by `getSubtasksInOrder`. -/
inductive DecompErr where
  | circular (id : String)
  | outOfFuel
deriving DecidableEq

/-- The message of the error thrown by `getSubtasksInOrder` on a cycle. -/
def circularMessage (id : String) : String :=
  "Circular dependency detected involving subtask: " ++ id

/-- The mutable state of the DFS in `getSubtasksInOrder`: the `visiting` and
`visited` sets and the `ordered` output array. -/
structure VisitState where
  visiting : List String
  visited : List String
  ordered : List Subtask
deriving DecidableEq

/-- Initial DFS state (`ordered = []`, `visited`/`visiting` empty). -/
def initVisitState : VisitState := ⟨[], [], []⟩

/-- The `for (const depId of subtask.dependencies)` loop of `visit`: each
dependency id is resolved with `subtasks.find(s => s.id === depId)` and
visited (with the recursive visit `f`) when found. -/
def visitDeps (subtasks : List Subtask)
    (f : Subtask → VisitState → Except DecompErr VisitState)
    (deps : List String) (st : VisitState) : Except DecompErr VisitState :=
  match deps with
  | [] => .ok st
  | d :: ds =>
    match subtasks.find? (fun t => t.id = d) with
    | none => visitDeps subtasks f ds st
    | some t =>
      match f t st with
      | .error e => .error e
      | .ok st1 => visitDeps subtasks f ds st1

/-- The inner `visit` closure of `getSubtasksInOrder` (decomposer.js).
`fuel` bounds the recursion depth; every other step is a direct transcription:
an in-progress id throws, a finished id returns, otherwise the subtask is
marked in-progress, its resolvable dependencies are visited first, and the
subtask is emitted. -/
def visit (subtasks : List Subtask) (fuel : Nat) (s : Subtask)
    (st : VisitState) : Except DecompErr VisitState :=
  match fuel with
  | 0 => .error .outOfFuel
  | fuel + 1 =>
    if s.id ∈ st.visiting then
      .error (.circular s.id)
    else if s.id ∈ st.visited then
      .ok st
    else
      match visitDeps subtasks (visit subtasks fuel) s.dependencies
          { st with visiting := s.id :: st.visiting } with
      | .error e => .error e
      | .ok st2 =>
        .ok { visiting := st2.visiting.erase s.id,
              visited := s.id :: st2.visited,
              ordered := st2.ordered ++ [s] }

/-- The top-level `for (const subtask of subtasks) visit(subtask)` loop of
`getSubtasksInOrder`.  Each call receives enough fuel for the deepest
possible DFS (`subtasks.length + 1`). -/
def visitAll (subtasks : List Subtask) (rem : List Subtask)
    (st : VisitState) : Except DecompErr VisitState :=
  match rem with
  | [] => .ok st
  | s :: rest =>
    match visit subtasks (subtasks.length + 1) s st with
    | .error e => .error e
    | .ok st1 => visitAll subtasks rest st1

/-- `TaskDecomposer.getSubtasksInOrder` (decomposer.js): DFS topological
sort; throws on a circular dependency. -/
def getSubtasksInOrder (subtasks : List Subtask) :
    Except DecompErr (List Subtask) :=
  match visitAll subtasks subtasks initVisitState with
  | .error e => .error e
  | .ok st => .ok st.ordered

/-- The `parallelGroups.find(g => g.every(s =>
!subtask.dependencies.includes(s.id)))` step of `getParallelSubtasks`:
the subtask is pushed into the first batch none of whose members appear in
its dependency list; if no batch fits, a new batch is appended. -/
def insertIntoFirstFit (s : Subtask) :
    List (List Subtask) → List (List Subtask)
  | [] => [[s]]
  | g :: gs =>
    if g.all (fun t => !(s.dependencies.contains t.id)) then
      (g ++ [s]) :: gs
    else
      g :: insertIntoFirstFit s gs

/-- One iteration of the `for (const subtask of orderedSubtasks)` loop of
`getSubtasksInOrder`: the accumulator carries `(parallelGroups, completed)`;
a subtask whose dependencies are not all completed is skipped. -/
def parallelStep (acc : List (List Subtask) × List String) (s : Subtask) :
    List (List Subtask) × List String :=
  if s.dependencies.all (fun d => acc.2.contains d) then
    (insertIntoFirstFit s acc.1, s.id :: acc.2)
  else
    acc

/-- `TaskDecomposer.getParallelSubtasks` (decomposer.js): orders the subtasks
first (propagating a cycle error), then greedily groups them. -/
def getParallelSubtasks (subtasks : List Subtask) :
    Except DecompErr (List (List Subtask)) :=
  match getSubtasksInOrder subtasks with
  | .error e => .error e
  | .ok ordered => .ok (ordered.foldl parallelStep ([], [])).1

/-- The dependency relation of a subtask list: `Dep subtasks a b` holds when
some subtask with id `a` lists `b` among its dependencies and `b` is the id
of a subtask in the list (unresolvable ids are ignored by the scheduler). -/
def Dep (subtasks : List Subtask) (a b : String) : Prop :=
  ∃ s ∈ subtasks, s.id = a ∧ b ∈ s.dependencies ∧ b ∈ subtasks.map (·.id)

/-- A dependency cycle: some id reaches itself through one or more `Dep`
steps. -/
def HasCycle (subtasks : List Subtask) : Prop :=
  ∃ a, Relation.TransGen (Dep subtasks) a a

/-- The ids of a subtask list are pairwise distinct (the TaskGraph
"subtask ids are unique" invariant of the data model). -/
def NodupIds (subtasks : List Subtask) : Prop :=
  (subtasks.map (·.id)).Nodup

instance (subtasks : List Subtask) : Decidable (NodupIds subtasks) := by
  unfold NodupIds; infer_instance

/-- Index of the first batch containing a subtask with the given id. -/
def batchIndexOf (groups : List (List Subtask)) (i : String) : Option Nat :=
  groups.findIdx? (fun g => g.any (fun t => t.id = i))

/-- Decidable check that no batch contains a subtask together with a subtask
it depends on. -/
def batchesDepFree (groups : List (List Subtask)) : Bool :=
  groups.all (fun g => g.all (fun s => g.all
    (fun t => !(s.dependencies.contains t.id))))

section SchedulerExamples

/-- The three-subtask example of the specification:
`A` (no deps), `B` (deps: A), `C` (deps: A). -/
def parA : Subtask := { id := "A" }

def parB : Subtask := { id := "B", dependencies := ["A"] }

def parC : Subtask := { id := "C", dependencies := ["A"] }

/-- A three-subtask dependency chain `A ← B ← C`. -/
def chainC : Subtask := { id := "C", dependencies := ["B"] }

/-- The two-subtask cycle of the specification: `A` (deps: B), `B` (deps: A). -/
def cycA : Subtask := { id := "A", dependencies := ["B"] }

def cycB : Subtask := { id := "B", dependencies := ["A"] }

example : getSubtasksInOrder [parA, parB, parC] = .ok [parA, parB, parC] := by
  decide

example : getParallelSubtasks [parA, parB, parC] = .ok [[parA], [parB, parC]] := by
  decide

example : getSubtasksInOrder [cycA, cycB] = .error (.circular "A") := by
  decide

example : getParallelSubtasks [parA, parB, chainC] =
    .ok [[parA, chainC], [parB]] := by
  decide

end SchedulerExamples

section SchedulerProofs

variable (subtasks : List Subtask)

/-- If a dependency id is resolvable, `subtasks.find(s => s.id === depId)`
finds a subtask carrying exactly that id. -/
theorem find?_of_mem_ids {d : String} (hd : d ∈ subtasks.map (·.id)) :
    ∃ t, subtasks.find? (fun t => t.id = d) = some t ∧
      t ∈ subtasks ∧ t.id = d := by
  cases hfind : subtasks.find? (fun t => t.id = d) with
  | none =>
    rw [List.find?_eq_none] at hfind
    obtain ⟨t, ht, hid⟩ := List.mem_map.mp hd
    have hcontra := hfind t ht
    simp [hid] at hcontra
  | some t =>
    refine ⟨t, rfl, List.mem_of_find?_eq_some hfind, ?_⟩
    simpa using List.find?_some hfind

/-- A successful dependency loop leaves the `visiting` set unchanged
(each recursive visit removes exactly the id it added). -/
theorem visitDeps_ok_visiting
    (f : Subtask → VisitState → Except DecompErr VisitState)
    (hf : ∀ t st st', f t st = .ok st' → st'.visiting = st.visiting) :
    ∀ deps st st', visitDeps subtasks f deps st = .ok st' →
      st'.visiting = st.visiting := by
  intro deps
  induction deps with
  | nil =>
    intro st st' h
    simp only [visitDeps] at h
    exact (Except.ok.inj h).symm ▸ rfl
  | cons d ds ih =>
    intro st st' h
    simp only [visitDeps] at h
    split at h
    · exact ih st st' h
    · rename_i t hfind
      split at h
      · exact Except.noConfusion h
      · rename_i st1 hv
        rw [ih st1 st' h, hf t st st1 hv]

/-- A successful `visit` leaves the `visiting` set unchanged. -/
theorem visit_ok_visiting :
    ∀ fuel s st st', visit subtasks fuel s st = .ok st' →
      st'.visiting = st.visiting := by
  intro fuel
  induction fuel with
  | zero => intro s st st' h; simp [visit] at h
  | succ f ih =>
    intro s st st' h
    simp only [visit] at h
    by_cases h1 : s.id ∈ st.visiting
    · simp [h1] at h
    · by_cases h2 : s.id ∈ st.visited
      · simp only [h1, h2, if_true, if_false, ite_true, ite_false] at h
        exact (Except.ok.inj h).symm ▸ rfl
      · simp only [h1, h2, ite_true, ite_false, if_true, if_false] at h
        split at h
        · exact Except.noConfusion h
        · rename_i st2 hdeps
          have h3 := visitDeps_ok_visiting subtasks (visit subtasks f)
            (fun t a b hab => ih t a b hab) s.dependencies _ _ hdeps
          have h4 := (Except.ok.inj h).symm
          subst h4
          simp only at h3 ⊢
          rw [h3]
          exact List.erase_cons_head ..

/-- A `visit` can only succeed on a subtask that is not in progress. -/
theorem visit_ok_not_visiting {fuel : Nat} {s : Subtask} {st st' : VisitState}
    (h : visit subtasks fuel s st = .ok st') : s.id ∉ st.visiting := by
  cases fuel with
  | zero => simp [visit] at h
  | succ f =>
    simp only [visit] at h
    by_cases hv : s.id ∈ st.visiting
    · simp [hv] at h
    · exact hv

end SchedulerProofs

section SchedulerInvariant

variable (subtasks : List Subtask)

/-- Pairwise ordering guarantee of the DFS output: an earlier element `a`
never depends on a later element `b` whose id is resolvable. -/
def NoBackDep (a b : Subtask) : Prop :=
  ¬ (b.id ∈ a.dependencies ∧ b.id ∈ subtasks.map (·.id))

/-- Invariant of the DFS state of `getSubtasksInOrder`. -/
structure Inv (st : VisitState) : Prop where
  sub : ∀ s ∈ st.ordered, s ∈ subtasks
  vis_ord : ∀ i, i ∈ st.visited ↔ i ∈ st.ordered.map (·.id)
  nodupOrd : (st.ordered.map (·.id)).Nodup
  disj : ∀ i ∈ st.visited, i ∉ st.visiting
  depsDone : ∀ t ∈ st.ordered, ∀ d ∈ t.dependencies,
    d ∈ subtasks.map (·.id) → d ∈ st.visited
  noSelf : ∀ t ∈ st.ordered, ¬ (t.id ∈ t.dependencies ∧ t.id ∈ subtasks.map (·.id))
  pair : st.ordered.Pairwise (NoBackDep subtasks)

theorem inv_init : Inv subtasks initVisitState := by
  constructor <;> simp [initVisitState]

/-- What a successful `visit` of `s` guarantees. -/
structure VisitOutcome (st st' : VisitState) (i : String) : Prop where
  visiting_eq : st'.visiting = st.visiting
  inv : Inv subtasks st'
  mono : ∀ x ∈ st.visited, x ∈ st'.visited
  mem : i ∈ st'.visited

/-- What a successful dependency loop guarantees. -/
structure DepsOutcome (deps : List String) (st st' : VisitState) : Prop where
  visiting_eq : st'.visiting = st.visiting
  inv : Inv subtasks st'
  mono : ∀ x ∈ st.visited, x ∈ st'.visited
  resolved : ∀ d ∈ deps, d ∈ subtasks.map (·.id) → d ∈ st'.visited
  fresh : ∀ d ∈ deps, d ∈ subtasks.map (·.id) → d ∉ st.visiting

theorem visitDeps_ok_outcome (fuel : Nat)
    (hP : ∀ s ∈ subtasks, ∀ st st', Inv subtasks st →
      visit subtasks fuel s st = .ok st' → VisitOutcome subtasks st st' s.id) :
    ∀ deps st st', Inv subtasks st →
      visitDeps subtasks (visit subtasks fuel) deps st = .ok st' →
      DepsOutcome subtasks deps st st' := by
  intro deps
  induction deps with
  | nil =>
    intro st st' hinv h
    simp only [visitDeps] at h
    cases (Except.ok.inj h)
    exact ⟨rfl, hinv, fun x hx => hx, by simp, by simp⟩
  | cons d ds ih =>
    intro st st' hinv h
    simp only [visitDeps] at h
    split at h
    · rename_i hfind
      have O := ih st st' hinv h
      have hnores : d ∉ subtasks.map (·.id) := by
        intro hd
        obtain ⟨t, hfind2, _, _⟩ := find?_of_mem_ids subtasks hd
        rw [hfind] at hfind2
        exact Option.noConfusion hfind2
      refine ⟨O.visiting_eq, O.inv, O.mono, ?_, ?_⟩
      · intro d' hd' hpres
        rcases List.mem_cons.mp hd' with h1 | h1
        · exact absurd hpres (h1 ▸ hnores)
        · exact O.resolved d' h1 hpres
      · intro d' hd' hpres
        rcases List.mem_cons.mp hd' with h1 | h1
        · exact absurd hpres (h1 ▸ hnores)
        · exact O.fresh d' h1 hpres
    · rename_i t hfind
      have ht : t ∈ subtasks := List.mem_of_find?_eq_some hfind
      have htid : t.id = d := by simpa using List.find?_some hfind
      split at h
      · exact Except.noConfusion h
      · rename_i st1 hv
        have O1 := hP t ht st st1 hinv hv
        have O2 := ih st1 st' O1.inv h
        refine ⟨O2.visiting_eq.trans O1.visiting_eq, O2.inv,
          fun x hx => O2.mono x (O1.mono x hx), ?_, ?_⟩
        · intro d' hd' hpres
          rcases List.mem_cons.mp hd' with h1 | h1
          · exact h1 ▸ htid ▸ O2.mono t.id O1.mem
          · exact O2.resolved d' h1 hpres
        · intro d' hd' hpres
          rcases List.mem_cons.mp hd' with h1 | h1
          · exact h1 ▸ htid ▸ visit_ok_not_visiting subtasks hv
          · exact O1.visiting_eq ▸ O2.fresh d' h1 hpres

theorem visit_ok_outcome :
    ∀ fuel, ∀ s ∈ subtasks, ∀ st st', Inv subtasks st →
      visit subtasks fuel s st = .ok st' → VisitOutcome subtasks st st' s.id := by
  intro fuel
  induction fuel with
  | zero => intro s hs st st' _ h; simp [visit] at h
  | succ f ih =>
    intro s hs st st' hinv h
    simp only [visit] at h
    by_cases h1 : s.id ∈ st.visiting
    · simp [h1] at h
    · by_cases h2 : s.id ∈ st.visited
      · simp only [h1, h2, ite_true, ite_false, if_true, if_false] at h
        cases (Except.ok.inj h)
        exact ⟨rfl, hinv, fun x hx => hx, h2⟩
      · simp only [h1, h2, ite_true, ite_false, if_true, if_false] at h
        split at h
        · exact Except.noConfusion h
        · rename_i st2 hdeps
          have hinv1 : Inv subtasks { st with visiting := s.id :: st.visiting } := by
            refine ⟨hinv.sub, hinv.vis_ord, hinv.nodupOrd, ?_,
              hinv.depsDone, hinv.noSelf, hinv.pair⟩
            intro i hi
            simp only [List.mem_cons, not_or]
            exact ⟨fun hieq => h2 (hieq ▸ hi), hinv.disj i hi⟩
          have O := visitDeps_ok_outcome subtasks f ih s.dependencies _ _ hinv1 hdeps
          cases (Except.ok.inj h)
          have hvis2 : st2.visiting = s.id :: st.visiting := O.visiting_eq
          have hvis3 : st2.visiting.erase s.id = st.visiting := by
            rw [hvis2]; exact List.erase_cons_head ..
          have hsid_not_visited2 : s.id ∉ st2.visited := by
            intro hmem
            exact O.inv.disj s.id hmem (hvis2 ▸ List.mem_cons_self s.id st.visiting)
          have hsid_not_ord2 : s.id ∉ st2.ordered.map (·.id) := by
            intro hmem
            exact hsid_not_visited2 ((O.inv.vis_ord s.id).mpr hmem)
          refine ⟨?_, ?_, ?_, ?_⟩
          · simp only
            rw [hvis2]
            exact List.erase_cons_head ..
          · refine ⟨?_, ?_, ?_, ?_, ?_, ?_, ?_⟩
            · intro t htmem
              simp only [List.mem_append, List.mem_singleton] at htmem
              rcases htmem with h3 | h3
              · exact O.inv.sub t h3
              · exact h3 ▸ hs
            · intro i
              simp only [List.mem_cons, List.map_append, List.mem_append,
                List.map_cons, List.map_nil, List.mem_singleton, O.inv.vis_ord i]
              tauto
            · simp only [List.map_append, List.map_cons, List.map_nil]
              rw [List.nodup_append]
              exact ⟨O.inv.nodupOrd, List.nodup_singleton _,
                by simpa [List.Disjoint] using hsid_not_ord2⟩
            · intro i hi
              simp only [List.mem_cons] at hi
              simp only [hvis3]
              rcases hi with h3 | h3
              · exact h3 ▸ h1
              · intro hmem
                exact O.inv.disj i h3 (hvis2 ▸ List.mem_cons_of_mem _ hmem)
            · intro t htmem d hd hpres
              simp only [List.mem_append, List.mem_singleton] at htmem
              rcases htmem with h3 | h3
              · exact List.mem_cons_of_mem _ (O.inv.depsDone t h3 d hd hpres)
              · exact List.mem_cons_of_mem _ (O.resolved d (h3 ▸ hd) hpres)
            · intro t htmem
              simp only [List.mem_append, List.mem_singleton] at htmem
              rcases htmem with h3 | h3
              · exact O.inv.noSelf t h3
              · rintro ⟨hdep, hpres⟩
                exact O.fresh s.id (h3 ▸ hdep) (h3 ▸ hpres) (List.mem_cons_self _ _)
            · rw [List.pairwise_append]
              refine ⟨O.inv.pair, List.pairwise_singleton _ _, ?_⟩
              intro a ha b hb
              simp only [List.mem_singleton] at hb
              rintro ⟨hdep, hpres⟩
              have hvisited := O.inv.depsDone a ha s.id (hb ▸ hdep) (hb ▸ hpres)
              exact O.inv.disj s.id hvisited (hvis2 ▸ List.mem_cons_self _ _)
          · intro x hx
            exact List.mem_cons_of_mem _ (O.mono x hx)
          · exact List.mem_cons_self _ _

end SchedulerInvariant

section SchedulerFuel

variable (subtasks : List Subtask)

/-- Number of subtask ids not yet in progress: a bound on the remaining
DFS depth, used to discharge the embedding's fuel. -/
def freshCount (visiting : List String) : Nat :=
  ((subtasks.map (·.id)).toFinset.filter (fun i => i ∉ visiting)).card

theorem freshCount_cons {v : List String} {i : String}
    (hi : i ∈ subtasks.map (·.id)) (hnv : i ∉ v) :
    freshCount subtasks (i :: v) + 1 = freshCount subtasks v := by
  unfold freshCount
  have hmem : i ∈ (subtasks.map (·.id)).toFinset.filter (fun j => j ∉ v) := by
    simp only [Finset.mem_filter, List.mem_toFinset]
    exact ⟨hi, hnv⟩
  have hset : (subtasks.map (·.id)).toFinset.filter (fun j => j ∉ i :: v) =
      ((subtasks.map (·.id)).toFinset.filter (fun j => j ∉ v)).erase i := by
    ext j
    simp only [Finset.mem_filter, Finset.mem_erase, List.mem_cons, not_or,
      List.mem_toFinset]
    tauto
  have hpos : 0 < ((subtasks.map (·.id)).toFinset.filter (fun j => j ∉ v)).card :=
    Finset.card_pos.mpr ⟨i, hmem⟩
  rw [hset, Finset.card_erase_of_mem hmem]
  omega

theorem freshCount_nil_le : freshCount subtasks [] ≤ subtasks.length := by
  unfold freshCount
  calc ((subtasks.map (·.id)).toFinset.filter (fun i => i ∉ ([] : List String))).card
      ≤ (subtasks.map (·.id)).toFinset.card := Finset.card_filter_le _ _
    _ ≤ (subtasks.map (·.id)).length := List.toFinset_card_le _
    _ = subtasks.length := List.length_map _ _

theorem visitDeps_no_fuel_err (fuel : Nat)
    (hP : ∀ s ∈ subtasks, ∀ st, freshCount subtasks st.visiting < fuel →
      visit subtasks fuel s st ≠ .error .outOfFuel) :
    ∀ deps st, freshCount subtasks st.visiting < fuel →
      visitDeps subtasks (visit subtasks fuel) deps st ≠ .error .outOfFuel := by
  intro deps
  induction deps with
  | nil => intro st _ h; simp [visitDeps] at h
  | cons d ds ih =>
    intro st hfc h
    simp only [visitDeps] at h
    split at h
    · exact ih st hfc h
    · rename_i t hfind
      have ht : t ∈ subtasks := List.mem_of_find?_eq_some hfind
      split at h
      · rename_i e hv
        cases (Except.error.inj h)
        exact hP t ht st hfc hv
      · rename_i st1 hv
        have hpres := visit_ok_visiting subtasks fuel t st st1 hv
        exact ih st1 (hpres ▸ hfc) h

theorem visit_no_fuel_err :
    ∀ fuel, ∀ s ∈ subtasks, ∀ st, freshCount subtasks st.visiting < fuel →
      visit subtasks fuel s st ≠ .error .outOfFuel := by
  intro fuel
  induction fuel with
  | zero => intro s _ st hfc; omega
  | succ f ih =>
    intro s hs st hfc h
    simp only [visit] at h
    by_cases h1 : s.id ∈ st.visiting
    · simp [h1] at h
    · by_cases h2 : s.id ∈ st.visited
      · simp [h1, h2] at h
      · simp only [h1, h2, ite_true, ite_false, if_true, if_false] at h
        split at h
        · rename_i e hdeps
          cases (Except.error.inj h)
          have hsid : s.id ∈ subtasks.map (·.id) := List.mem_map_of_mem _ hs
          have hfc1 : freshCount subtasks (s.id :: st.visiting) < f := by
            have := freshCount_cons subtasks hsid h1
            omega
          exact visitDeps_no_fuel_err subtasks f ih s.dependencies
            { st with visiting := s.id :: st.visiting } hfc1 hdeps
        · exact Except.noConfusion h

end SchedulerFuel

section SchedulerCycle

variable (subtasks : List Subtask)

/-- The `visiting` stack of the DFS is always a dependency chain: each id
was pushed while traversing a dependency of the id below it. -/
theorem chain_descent {h : String} {t : List String}
    (hc : List.Chain' (fun a b => Dep subtasks b a) (h :: t)) :
    ∀ x ∈ h :: t, Relation.ReflTransGen (Dep subtasks) x h := by
  induction t generalizing h with
  | nil =>
    intro x hx
    simp only [List.mem_singleton] at hx
    exact hx ▸ .refl
  | cons h2 t2 ih =>
    intro x hx
    rw [List.chain'_cons] at hc
    rcases List.mem_cons.mp hx with h3 | h3
    · exact h3 ▸ .refl
    · exact .tail (ih hc.2 x h3) hc.1

theorem visitDeps_circular_cycle (fuel : Nat)
    (hP : ∀ s ∈ subtasks, ∀ st c,
      List.Chain' (fun a b => Dep subtasks b a) st.visiting →
      (∀ h t, st.visiting = h :: t → Dep subtasks h s.id) →
      visit subtasks fuel s st = .error (.circular c) →
      Relation.TransGen (Dep subtasks) c c) :
    ∀ deps st c (p : Subtask), p ∈ subtasks → deps ⊆ p.dependencies →
      List.Chain' (fun a b => Dep subtasks b a) st.visiting →
      (∃ t, st.visiting = p.id :: t) →
      visitDeps subtasks (visit subtasks fuel) deps st = .error (.circular c) →
      Relation.TransGen (Dep subtasks) c c := by
  intro deps
  induction deps with
  | nil => intro st c p _ _ _ _ h; simp [visitDeps] at h
  | cons d ds ih =>
    intro st c p hp hsub hchain hhead h
    simp only [visitDeps] at h
    split at h
    · exact ih st c p hp (fun x hx => hsub (List.mem_cons_of_mem _ hx)) hchain hhead h
    · rename_i t hfind
      have ht : t ∈ subtasks := List.mem_of_find?_eq_some hfind
      have htid : t.id = d := by simpa using List.find?_some hfind
      split at h
      · rename_i e hv
        cases (Except.error.inj h)
        refine hP t ht st c hchain ?_ hv
        intro h0 t0 hvis
        obtain ⟨t1, hvis1⟩ := hhead
        rw [hvis1] at hvis
        cases hvis
        exact ⟨p, hp, rfl, htid ▸ hsub (List.mem_cons_self _ _),
          List.mem_map_of_mem _ ht⟩
      · rename_i st1 hv
        have hpres := visit_ok_visiting subtasks fuel t st st1 hv
        exact ih st1 c p hp (fun x hx => hsub (List.mem_cons_of_mem _ hx))
          (hpres ▸ hchain) (hpres ▸ hhead) h

theorem visit_circular_cycle :
    ∀ fuel, ∀ s ∈ subtasks, ∀ st c,
      List.Chain' (fun a b => Dep subtasks b a) st.visiting →
      (∀ h t, st.visiting = h :: t → Dep subtasks h s.id) →
      visit subtasks fuel s st = .error (.circular c) →
      Relation.TransGen (Dep subtasks) c c := by
  intro fuel
  induction fuel with
  | zero =>
    intro s _ st c _ _ h
    simp only [visit] at h
    cases (Except.error.inj h)
  | succ f ih =>
    intro s hs st c hchain hhead h
    simp only [visit] at h
    by_cases h1 : s.id ∈ st.visiting
    · simp only [h1, ite_true, if_true] at h
      cases (Except.error.inj h)
      cases hvis : st.visiting with
      | nil => rw [hvis] at h1; simp at h1
      | cons h0 t0 =>
        have hdep : Dep subtasks h0 s.id := hhead h0 t0 hvis
        have hdesc : Relation.ReflTransGen (Dep subtasks) s.id h0 :=
          chain_descent subtasks (hvis ▸ hchain) s.id (hvis ▸ h1)
        exact Relation.TransGen.tail' hdesc hdep
    · by_cases h2 : s.id ∈ st.visited
      · simp [h1, h2] at h
      · simp only [h1, h2, ite_true, ite_false, if_true, if_false] at h
        split at h
        · rename_i e hdeps
          cases (Except.error.inj h)
          refine visitDeps_circular_cycle subtasks f ih s.dependencies
            { st with visiting := s.id :: st.visiting } c s hs
            (fun x hx => hx) ?_ ⟨st.visiting, rfl⟩ hdeps
          simp only
          cases hvis : st.visiting with
          | nil => simp
          | cons h0 t0 =>
            rw [List.chain'_cons]
            exact ⟨hhead h0 t0 hvis, hvis ▸ hchain⟩
        · exact Except.noConfusion h

end SchedulerCycle

section SchedulerTop

variable (subtasks : List Subtask)

theorem visitAll_ok_outcome :
    ∀ rem st st', (∀ s ∈ rem, s ∈ subtasks) → Inv subtasks st →
      visitAll subtasks rem st = .ok st' →
      Inv subtasks st' ∧ (∀ x ∈ st.visited, x ∈ st'.visited) ∧
        (∀ s ∈ rem, s.id ∈ st'.visited) := by
  intro rem
  induction rem with
  | nil =>
    intro st st' _ hinv h
    simp only [visitAll] at h
    cases (Except.ok.inj h)
    exact ⟨hinv, fun x hx => hx, by simp⟩
  | cons s rest ih =>
    intro st st' hmem hinv h
    simp only [visitAll] at h
    split at h
    · exact Except.noConfusion h
    · rename_i st1 hv
      have O := visit_ok_outcome subtasks (subtasks.length + 1) s
        (hmem s (List.mem_cons_self _ _)) st st1 hinv hv
      obtain ⟨hinv', hmono, hids⟩ := ih st1 st'
        (fun x hx => hmem x (List.mem_cons_of_mem _ hx)) O.inv h
      refine ⟨hinv', fun x hx => hmono x (O.mono x hx), ?_⟩
      intro x hx
      rcases List.mem_cons.mp hx with h3 | h3
      · exact h3 ▸ hmono _ O.mem
      · exact hids x h3

theorem visitAll_circular :
    ∀ rem st c, (∀ s ∈ rem, s ∈ subtasks) → st.visiting = [] →
      visitAll subtasks rem st = .error (.circular c) →
      Relation.TransGen (Dep subtasks) c c := by
  intro rem
  induction rem with
  | nil => intro st c _ _ h; simp [visitAll] at h
  | cons s rest ih =>
    intro st c hmem hnil h
    simp only [visitAll] at h
    split at h
    · rename_i e hv
      cases (Except.error.inj h)
      refine visit_circular_cycle subtasks (subtasks.length + 1) s
        (hmem s (List.mem_cons_self _ _)) st c ?_ ?_ hv
      · rw [hnil]; exact List.chain'_nil
      · intro h0 t0 hh
        rw [hnil] at hh
        exact List.noConfusion hh
    · rename_i st1 hv
      have hpres := visit_ok_visiting subtasks (subtasks.length + 1) s st st1 hv
      exact ih st1 c (fun x hx => hmem x (List.mem_cons_of_mem _ hx))
        (hpres.trans hnil) h

theorem visitAll_no_fuel :
    ∀ rem st, (∀ s ∈ rem, s ∈ subtasks) → st.visiting = [] →
      visitAll subtasks rem st ≠ .error .outOfFuel := by
  intro rem
  induction rem with
  | nil => intro st _ _ h; simp [visitAll] at h
  | cons s rest ih =>
    intro st hmem hnil h
    simp only [visitAll] at h
    split at h
    · rename_i e hv
      cases (Except.error.inj h)
      have hfc : freshCount subtasks st.visiting < subtasks.length + 1 := by
        rw [hnil]
        exact Nat.lt_succ_of_le (freshCount_nil_le subtasks)
      exact visit_no_fuel_err subtasks (subtasks.length + 1) s
        (hmem s (List.mem_cons_self _ _)) st hfc hv
    · rename_i st1 hv
      have hpres := visit_ok_visiting subtasks (subtasks.length + 1) s st st1 hv
      exact ih st1 (fun x hx => hmem x (List.mem_cons_of_mem _ hx))
        (hpres.trans hnil) h

/-- Facts available about every successful run of `getSubtasksInOrder`. -/
theorem getSubtasksInOrder_ok_facts {l : List Subtask}
    (h : getSubtasksInOrder subtasks = .ok l) :
    (∀ s ∈ l, s ∈ subtasks) ∧ (l.map (·.id)).Nodup ∧
      (∀ s ∈ subtasks, s.id ∈ l.map (·.id)) ∧
      (∀ t ∈ l, ∀ d ∈ t.dependencies, d ∈ subtasks.map (·.id) →
        d ∈ l.map (·.id)) ∧
      (∀ t ∈ l, ¬ (t.id ∈ t.dependencies ∧ t.id ∈ subtasks.map (·.id))) ∧
      l.Pairwise (NoBackDep subtasks) := by
  unfold getSubtasksInOrder at h
  split at h
  · exact Except.noConfusion h
  · rename_i st hva
    cases (Except.ok.inj h)
    obtain ⟨hinv, _, hids⟩ := visitAll_ok_outcome subtasks subtasks
      initVisitState st (fun s hs => hs) (inv_init subtasks) hva
    refine ⟨hinv.sub, hinv.nodupOrd, ?_, ?_, hinv.noSelf, hinv.pair⟩
    · intro s hs
      exact (hinv.vis_ord s.id).mp (hids s hs)
    · intro t ht d hd hpres
      exact (hinv.vis_ord d).mp (hinv.depsDone t ht d hd hpres)

/-- With unique ids, a successful topological sort is a permutation of its
input. -/
theorem getSubtasksInOrder_ok_perm (hN : NodupIds subtasks) {l : List Subtask}
    (h : getSubtasksInOrder subtasks = .ok l) : l.Perm subtasks := by
  obtain ⟨hsub, hnd, hcompl, _, _, _⟩ := getSubtasksInOrder_ok_facts subtasks h
  rw [List.perm_ext_iff_of_nodup (hnd.of_map) (hN.of_map)]
  intro a
  constructor
  · exact hsub a
  · intro ha
    obtain ⟨t, htl, htid⟩ := List.mem_map.mp (hcompl a ha)
    exact (List.inj_on_of_nodup_map hN (hsub t htl) ha htid) ▸ htl

/-- With unique ids, every element of a successful topological sort appears
after all of its resolvable dependencies. -/
theorem getSubtasksInOrder_ok_respects (hN : NodupIds subtasks)
    {l : List Subtask} (h : getSubtasksInOrder subtasks = .ok l) :
    ∀ pre s post, l = pre ++ s :: post → ∀ d ∈ s.dependencies,
      d ∈ subtasks.map (·.id) → d ∈ pre.map (·.id) := by
  obtain ⟨hsub, hnd, hcompl, _, hnoself, hpair⟩ :=
    getSubtasksInOrder_ok_facts subtasks h
  have hperm := getSubtasksInOrder_ok_perm subtasks hN h
  intro pre s post hsplit d hd hpres
  obtain ⟨u, hu, huid⟩ := List.mem_map.mp hpres
  have hul : u ∈ l := hperm.mem_iff.mpr hu
  rw [hsplit] at hul
  rcases List.mem_append.mp hul with h1 | h1
  · exact huid ▸ List.mem_map_of_mem _ h1
  · rcases List.mem_cons.mp h1 with h2 | h2
    · rw [← huid, h2] at hd hpres
      have hsl : s ∈ l := hsplit ▸ List.mem_append_right _ (List.mem_cons_self _ _)
      exact absurd ⟨hd, hpres⟩ (hnoself s hsl)
    · have hps : List.Pairwise (NoBackDep subtasks) (s :: post) :=
        (List.pairwise_append.mp (hsplit ▸ hpair)).2.1
      have hnb := (List.pairwise_cons.mp hps).1 u h2
      rw [← huid] at hd hpres
      exact absurd ⟨hd, hpres⟩ hnb

/-- A successful topological sort certifies acyclicity (the output is a
ranking function of the dependency relation). -/
theorem not_hasCycle_of_ok (hN : NodupIds subtasks) {l : List Subtask}
    (h : getSubtasksInOrder subtasks = .ok l) : ¬ HasCycle subtasks := by
  obtain ⟨hsub, hnd, hcompl, _, _, _⟩ := getSubtasksInOrder_ok_facts subtasks h
  have hperm := getSubtasksInOrder_ok_perm subtasks hN h
  have hresp := getSubtasksInOrder_ok_respects subtasks hN h
  have hrank : ∀ x y, Dep subtasks x y →
      (l.map (·.id)).indexOf y < (l.map (·.id)).indexOf x := by
    rintro x y ⟨s, hs, hsid, hydep, hypres⟩
    have hsl : s ∈ l := hperm.mem_iff.mpr hs
    obtain ⟨pre, post, hsplit⟩ := List.append_of_mem hsl
    have hy : y ∈ pre.map (·.id) := hresp pre s post hsplit y hydep hypres
    have hmapsplit : l.map (·.id) =
        pre.map (·.id) ++ s.id :: post.map (·.id) := by
      rw [hsplit]; simp
    have hnotpre : s.id ∉ pre.map (·.id) := by
      intro hmem
      have hnd2 := hmapsplit ▸ hnd
      rw [List.nodup_append] at hnd2
      exact hnd2.2.2 hmem (List.mem_cons_self _ _)
    rw [hmapsplit, ← hsid]
    calc (pre.map (·.id) ++ s.id :: post.map (·.id)).indexOf y
        = (pre.map (·.id)).indexOf y := List.indexOf_append_of_mem hy
      _ < (pre.map (·.id)).length := List.indexOf_lt_length.mpr hy
      _ ≤ (pre.map (·.id)).length +
            (s.id :: post.map (·.id)).indexOf s.id := Nat.le_add_right _ _
      _ = (pre.map (·.id) ++ s.id :: post.map (·.id)).indexOf s.id :=
            (List.indexOf_append_of_not_mem hnotpre).symm
  rintro ⟨a, hcyc⟩
  have hmono : ∀ x y, Relation.TransGen (Dep subtasks) x y →
      (l.map (·.id)).indexOf y < (l.map (·.id)).indexOf x := by
    intro x y hxy
    induction hxy with
    | single h1 => exact hrank _ _ h1
    | tail _ h1 ih => exact lt_trans (hrank _ _ h1) ih
  exact lt_irrefl _ (hmono a a hcyc)

/-- The fuel chosen by the embedding is always sufficient. -/
theorem getSubtasksInOrder_not_fuel :
    getSubtasksInOrder subtasks ≠ .error .outOfFuel := by
  unfold getSubtasksInOrder
  split
  · rename_i e hva
    intro h
    cases (Except.error.inj h)
    exact visitAll_no_fuel subtasks subtasks initVisitState
      (fun s hs => hs) rfl hva
  · exact fun h => Except.noConfusion h

/-- A circular-dependency error always reports an id that really lies on a
dependency cycle. -/
theorem getSubtasksInOrder_circular {c : String}
    (h : getSubtasksInOrder subtasks = .error (.circular c)) :
    Relation.TransGen (Dep subtasks) c c := by
  unfold getSubtasksInOrder at h
  split at h
  · rename_i e hva
    cases (Except.error.inj h)
    exact visitAll_circular subtasks subtasks initVisitState c
      (fun s hs => hs) rfl hva
  · exact Except.noConfusion h

end SchedulerTop

section ParallelBatches

variable (subtasks : List Subtask)

/-- Members of batches after an insertion come from the old batches or are
the inserted subtask. -/
theorem insertIntoFirstFit_mem (s : Subtask) :
    ∀ groups g t, g ∈ insertIntoFirstFit s groups → t ∈ g →
      (∃ g0 ∈ groups, t ∈ g0) ∨ t = s := by
  intro groups
  induction groups with
  | nil =>
    intro g t hg ht
    simp only [insertIntoFirstFit, List.mem_singleton] at hg
    rw [hg] at ht
    simp only [List.mem_singleton] at ht
    exact Or.inr ht
  | cons g0 gs ih =>
    intro g t hg ht
    simp only [insertIntoFirstFit] at hg
    split at hg
    · rcases List.mem_cons.mp hg with h1 | h1
      · rw [h1] at ht
        rcases List.mem_append.mp ht with h2 | h2
        · exact Or.inl ⟨g0, List.mem_cons_self _ _, h2⟩
        · simp only [List.mem_singleton] at h2
          exact Or.inr h2
      · exact Or.inl ⟨g, List.mem_cons_of_mem _ h1, ht⟩
    · rcases List.mem_cons.mp hg with h1 | h1
      · exact Or.inl ⟨g0, List.mem_cons_self _ _, h1 ▸ ht⟩
      · rcases ih g t h1 ht with ⟨g1, hg1, ht1⟩ | h2
        · exact Or.inl ⟨g1, List.mem_cons_of_mem _ hg1, ht1⟩
        · exact Or.inr h2

/-- Inserting a subtask that depends on no current member of its target
batch, is depended on by no current member, and does not depend on itself,
keeps every batch free of internal dependencies. -/
theorem insertIntoFirstFit_depfree (s : Subtask)
    (hself : s.id ∉ s.dependencies) :
    ∀ groups, (∀ g ∈ groups, ∀ u ∈ g, ∀ t ∈ g, t.id ∉ u.dependencies) →
      (∀ g ∈ groups, ∀ t ∈ g, s.id ∉ t.dependencies) →
      ∀ g ∈ insertIntoFirstFit s groups, ∀ u ∈ g, ∀ t ∈ g,
        t.id ∉ u.dependencies := by
  intro groups
  induction groups with
  | nil =>
    intro _ _ g hg u hu t ht
    simp only [insertIntoFirstFit, List.mem_singleton] at hg
    rw [hg] at hu ht
    simp only [List.mem_singleton] at hu ht
    rw [hu, ht]
    exact hself
  | cons g0 gs ih =>
    intro h2 h1 g hg u hu t ht
    simp only [insertIntoFirstFit] at hg
    split at hg
    · rename_i hfit
      rcases List.mem_cons.mp hg with h3 | h3
      · rw [h3] at hu ht
        rcases List.mem_append.mp hu with hu1 | hu1 <;>
          rcases List.mem_append.mp ht with ht1 | ht1
        · exact h2 g0 (List.mem_cons_self _ _) u hu1 t ht1
        · simp only [List.mem_singleton] at ht1
          rw [ht1]
          exact h1 g0 (List.mem_cons_self _ _) u hu1
        · simp only [List.mem_singleton] at hu1
          rw [hu1]
          have := List.all_eq_true.mp hfit t ht1
          simpa using this
        · simp only [List.mem_singleton] at hu1 ht1
          rw [hu1, ht1]
          exact hself
      · exact h2 g (List.mem_cons_of_mem _ h3) u hu t ht
    · rcases List.mem_cons.mp hg with h3 | h3
      · exact h2 g (h3 ▸ List.mem_cons_self _ _) u hu t ht
      · exact ih (fun g4 hg4 => h2 g4 (List.mem_cons_of_mem _ hg4))
          (fun g4 hg4 => h1 g4 (List.mem_cons_of_mem _ hg4)) g h3 u hu t ht

/-- Invariant of the batching fold: if no current batch member depends on a
pending subtask, batches stay free of internal dependencies. -/
theorem parallel_fold_depfree :
    ∀ (l : List Subtask) (acc : List (List Subtask) × List String),
      l.Pairwise (NoBackDep subtasks) →
      (∀ s ∈ l, s ∈ subtasks) →
      (∀ s ∈ l, ¬ (s.id ∈ s.dependencies ∧ s.id ∈ subtasks.map (·.id))) →
      (∀ g ∈ acc.1, ∀ t ∈ g, ∀ s ∈ l, s.id ∉ t.dependencies) →
      (∀ g ∈ acc.1, ∀ u ∈ g, ∀ t ∈ g, t.id ∉ u.dependencies) →
      ∀ g ∈ (l.foldl parallelStep acc).1, ∀ u ∈ g, ∀ t ∈ g,
        t.id ∉ u.dependencies := by
  intro l
  induction l with
  | nil =>
    intro acc _ _ _ _ h2
    simpa using h2
  | cons s rest ih =>
    intro acc hpair hmem hnoself h1 h2
    have hs : s ∈ subtasks := hmem s (List.mem_cons_self _ _)
    have hsid : s.id ∈ subtasks.map (·.id) := List.mem_map_of_mem _ hs
    have hself : s.id ∉ s.dependencies := by
      intro hc
      exact hnoself s (List.mem_cons_self _ _) ⟨hc, hsid⟩
    have hrest_no_dep_on : ∀ t ∈ rest, t.id ∉ s.dependencies := by
      intro t ht hc
      exact (List.pairwise_cons.mp hpair).1 t ht
        ⟨hc, List.mem_map_of_mem _ (hmem t (List.mem_cons_of_mem _ ht))⟩
    simp only [List.foldl_cons]
    unfold parallelStep
    split
    · -- canStart: the subtask is inserted and marked completed
      refine ih (insertIntoFirstFit s acc.1, s.id :: acc.2)
        (List.pairwise_cons.mp hpair).2
        (fun x hx => hmem x (List.mem_cons_of_mem _ hx))
        (fun x hx => hnoself x (List.mem_cons_of_mem _ hx)) ?_ ?_
      · intro g hg t ht s1 hs1
        rcases insertIntoFirstFit_mem s acc.1 g t hg ht with ⟨g0, hg0, ht0⟩ | h3
        · exact h1 g0 hg0 t ht0 s1 (List.mem_cons_of_mem _ hs1)
        · rw [h3]
          exact fun hc => hrest_no_dep_on s1 hs1 hc
      · exact insertIntoFirstFit_depfree s hself acc.1 h2
          (fun g hg t ht => h1 g hg t ht s (List.mem_cons_self _ _))
    · -- not startable: the subtask is silently skipped
      exact ih acc (List.pairwise_cons.mp hpair).2
        (fun x hx => hmem x (List.mem_cons_of_mem _ hx))
        (fun x hx => hnoself x (List.mem_cons_of_mem _ hx))
        (fun g hg t ht s1 hs1 => h1 g hg t ht s1 (List.mem_cons_of_mem _ hs1))
        h2

end ParallelBatches

section SchedulerClaims

/-- Every batch of a successful `getParallelSubtasks` run is free of internal
dependencies. -/
theorem getParallelSubtasks_ok_depfree (subtasks : List Subtask)
    {groups : List (List Subtask)}
    (h : getParallelSubtasks subtasks = .ok groups) :
    ∀ g ∈ groups, ∀ u ∈ g, ∀ t ∈ g, t.id ∉ u.dependencies := by
  unfold getParallelSubtasks at h
  split at h
  · exact Except.noConfusion h
  · rename_i l hord
    cases (Except.ok.inj h)
    obtain ⟨hsub, _, _, _, hnoself, hpair⟩ :=
      getSubtasksInOrder_ok_facts subtasks hord
    exact parallel_fold_depfree subtasks l ([], []) hpair hsub hnoself
      (by simp) (by simp)

/-- C2: for every subtask set (distinct ids) with no dependency cycle,
`getSubtasksInOrder` returns a sequence that contains every input subtask
exactly once (a permutation of the input) and in which every subtask appears
after all subtasks named in its dependencies, dependencies whose id is
absent from the set being ignored. -/
theorem ord_claim_topological_order (subtasks : List Subtask)
    (hN : NodupIds subtasks) (hA : ¬ HasCycle subtasks) :
    ∃ l, getSubtasksInOrder subtasks = .ok l ∧ l.Perm subtasks ∧
      ∀ pre s post, l = pre ++ s :: post → ∀ d ∈ s.dependencies,
        d ∈ subtasks.map (·.id) → d ∈ pre.map (·.id) := by
  cases hres : getSubtasksInOrder subtasks with
  | error e =>
    cases e with
    | circular c =>
      exact absurd ⟨c, getSubtasksInOrder_circular subtasks hres⟩ hA
    | outOfFuel => exact absurd hres (getSubtasksInOrder_not_fuel subtasks)
  | ok l =>
    exact ⟨l, rfl, getSubtasksInOrder_ok_perm subtasks hN hres,
      getSubtasksInOrder_ok_respects subtasks hN hres⟩

/-- C2 witness: the specification's example `A` (no deps), `B` (deps: A),
`C` (deps: A) satisfies the hypotheses of `ord_claim_topological_order`. -/
theorem ord_claim_topological_order_witness :
    NodupIds [parA, parB, parC] ∧
      ∃ l, getSubtasksInOrder [parA, parB, parC] = .ok l ∧
        l.Perm [parA, parB, parC] ∧
        ∀ pre s post, l = pre ++ s :: post → ∀ d ∈ s.dependencies,
          d ∈ [parA, parB, parC].map (·.id) → d ∈ pre.map (·.id) :=
  ⟨by decide, ord_claim_topological_order [parA, parB, parC] (by decide)
    (not_hasCycle_of_ok [parA, parB, parC] (by decide)
      (show _ = .ok [parA, parB, parC] by decide))⟩

/-- The cycle `A` (deps: B), `B` (deps: A) in the dependency relation. -/
theorem cyc_dep_ab : Dep [cycA, cycB] "A" "B" :=
  ⟨cycA, by simp, rfl, by simp [cycA], by simp [cycA, cycB]⟩

theorem cyc_dep_ba : Dep [cycA, cycB] "B" "A" :=
  ⟨cycB, by simp, rfl, by simp [cycB], by simp [cycA, cycB]⟩

/-- C3: for every subtask set (distinct ids) containing a dependency cycle
among ids present in the set, `getSubtasksInOrder` throws the circular
dependency error naming an id that really lies on a cycle, and neither an
ordering nor a batching result is produced (`getParallelSubtasks` propagates
the same error). -/
theorem ord_claim_cycle_detection (subtasks : List Subtask)
    (hN : NodupIds subtasks) (hC : HasCycle subtasks) :
    ∃ c, getSubtasksInOrder subtasks = .error (.circular c) ∧
      Relation.TransGen (Dep subtasks) c c ∧
      getParallelSubtasks subtasks = .error (.circular c) := by
  cases hres : getSubtasksInOrder subtasks with
  | ok l => exact absurd hC (not_hasCycle_of_ok subtasks hN hres)
  | error e =>
    cases e with
    | outOfFuel => exact absurd hres (getSubtasksInOrder_not_fuel subtasks)
    | circular c =>
      refine ⟨c, rfl, getSubtasksInOrder_circular subtasks hres, ?_⟩
      unfold getParallelSubtasks
      rw [hres]

/-- C3 witness: the two-subtask cycle `A` (deps: B), `B` (deps: A) of the
specification raises the error. -/
theorem ord_claim_cycle_detection_witness :
    NodupIds [cycA, cycB] ∧
      ∃ c, getSubtasksInOrder [cycA, cycB] = .error (.circular c) ∧
        Relation.TransGen (Dep [cycA, cycB]) c c ∧
        getParallelSubtasks [cycA, cycB] = .error (.circular c) :=
  ⟨by decide, ord_claim_cycle_detection [cycA, cycB] (by decide)
    ⟨"A", Relation.TransGen.head cyc_dep_ab (Relation.TransGen.single cyc_dep_ba)⟩⟩

/-- C1 counterexample: for the acyclic chain `A`, `B` (deps: A), `C`
(deps: B), `getParallelSubtasks` places `C` in batch 0 although its
dependency `B` is placed in batch 1, so the batch index of a subtask is not
strictly greater than the batch index of each of its dependencies. -/
theorem par_claim_batch_order_cex :
    getParallelSubtasks [parA, parB, chainC] = .ok [[parA, chainC], [parB]] ∧
      "B" ∈ chainC.dependencies ∧
      batchIndexOf [[parA, chainC], [parB]] "C" = some 0 ∧
      batchIndexOf [[parA, chainC], [parB]] "B" = some 1 ∧
      ¬ (0 : Nat) > (1 : Nat) := by
  decide

/-- C1 (amended): for every subtask set, a successful `getParallelSubtasks`
run never places a subtask in the same batch as any subtask it depends on
(though it may place it in an earlier batch, see the counterexample). -/
theorem par_claim_batch_order (subtasks : List Subtask)
    {groups : List (List Subtask)}
    (h : getParallelSubtasks subtasks = .ok groups) :
    ∀ g ∈ groups, ∀ s ∈ g, ∀ d ∈ s.dependencies, ∀ t ∈ g, t.id ≠ d := by
  intro g hg s hs d hd t ht heq
  exact getParallelSubtasks_ok_depfree subtasks h g hg s hs t ht (heq ▸ hd)

/-- C1 witness: on the specification's example the batches are
`[[A], [B, C]]` and no batch contains a subtask together with one of its
dependencies. -/
theorem par_claim_batch_order_witness :
    getParallelSubtasks [parA, parB, parC] = .ok [[parA], [parB, parC]] ∧
      ∀ g ∈ [[parA], [parB, parC]], ∀ s ∈ g, ∀ d ∈ s.dependencies,
        ∀ t ∈ g, t.id ≠ d :=
  ⟨by decide, par_claim_batch_order [parA, parB, parC] (by decide)⟩

end SchedulerClaims

/-- Helper for `jsIncludes`: does `pat` occur as a contiguous subsequence of
`l`? -/
def containsSeq (pat : List Char) : List Char → Bool
  | [] => pat.isEmpty
  | c :: rest => pat.isPrefixOf (c :: rest) || containsSeq pat rest

/-- JavaScript `String.prototype.includes`, modelled on the character lists
of the strings (the markers used by the searcher are all ASCII, so the
UTF-16 view of JavaScript and the character view agree). -/
def jsIncludes (s pat : String) : Bool :=
  containsSeq pat.data s.data

/-- A generated candidate; only the code body (the `solution` field of the
JavaScript solution object) feeds validation and scoring. -/
structure Solution where
  solution : String
deriving DecidableEq

/-- Result object of `SolutionSearcher.validateSolution`. -/
structure Validation where
  hasStructure : Bool
  hasImplementation : Bool
  hasExports : Bool
  isValid : Bool
  failureReason : Option String
deriving DecidableEq

/-- `SolutionSearcher.validateSolution` (solutionSearcher.js): structural
string checks; the failure reason lists the violated rules joined by
a comma. -/
def validateSolution (sol : Solution) : Validation :=
  let hasFunctions := jsIncludes sol.solution "function" ||
    jsIncludes sol.solution "export"
  let hasImplementation := !jsIncludes sol.solution "TODO:" &&
    !jsIncludes sol.solution "throw new Error"
  let hasExports := jsIncludes sol.solution "export"
  let isValid := hasFunctions && hasImplementation && hasExports
  { hasStructure := hasFunctions, hasImplementation := hasImplementation,
    hasExports := hasExports, isValid := isValid,
    failureReason :=
      if isValid then none
      else some (String.intercalate ", "
        ((if hasFunctions then [] else ["Missing function definitions"]) ++
          (if hasImplementation then []
            else ["Contains placeholder or TODO comments"]) ++
          (if hasExports then [] else ["Missing exports"]))) }

/-- `SolutionSearcher.calculateSolutionScore` (solutionSearcher.js). -/
def calculateSolutionScore (sol : Solution) : Int :=
  let s := sol.solution
  (if jsIncludes s "function" then 10 else 0) +
    (if jsIncludes s "export" then 10 else 0) +
    (if jsIncludes s "/**" then 5 else 0) +
    (if jsIncludes s "try" then 5 else 0) +
    (if jsIncludes s "test" then 5 else 0) +
    (if !jsIncludes s "TODO" then 10 else 0) +
    (if !jsIncludes s "throw new Error" then 10 else 0) -
    (if s.length < 50 then 10 else 0) -
    (if jsIncludes s "placeholder" then 5 else 0)

/-- Modelled from the spec (the documented best-of-exhausted heuristic of
§4.2, which the claim C4 asserts the code maximizes): start at 0; +10 per
quality signal present (executable-logic marker, exported symbol,
structured-comment marker, error-handling marker); +10 if no placeholder
marker is present; −10 if the candidate body is below the minimum length
threshold; −5 if a known low-effort marker is present. -/
def specHeuristicScore (sol : Solution) : Int :=
  let s := sol.solution
  (if jsIncludes s "function" then 10 else 0) +
    (if jsIncludes s "export" then 10 else 0) +
    (if jsIncludes s "/**" then 10 else 0) +
    (if jsIncludes s "try" then 10 else 0) +
    (if !jsIncludes s "TODO" then 10 else 0) -
    (if s.length < 50 then 10 else 0) -
    (if jsIncludes s "placeholder" then 5 else 0)

/-- One recorded attempt of `findSolution`: the JavaScript object carries
either `solution` and `validation` fields, or an `error` field. -/
inductive SearchAttempt where
  | made (attempt : Nat) (solution : Solution) (validation : Validation)
  | failed (attempt : Nat) (error : String)
deriving DecidableEq

/-- The JavaScript predicate `a.solution && a.validation?.isValid`. -/
def SearchAttempt.isValidAttempt : SearchAttempt → Bool
  | .made _ _ v => v.isValid
  | .failed _ _ => false

/-- The candidate recorded in an attempt, when one exists
(`a.solution && !a.error`). -/
def SearchAttempt.solution? : SearchAttempt → Option Solution
  | .made _ sol _ => some sol
  | .failed _ _ => none

/-- Stable insertion of a candidate into a list sorted by decreasing score:
a later candidate goes after all earlier ones scoring at least as much
(ECMAScript guarantees `Array.prototype.sort` is stable). -/
def insertByScoreDesc (a : Solution) : List Solution → List Solution
  | [] => [a]
  | b :: bs =>
    if calculateSolutionScore a > calculateSolutionScore b then a :: b :: bs
    else b :: insertByScoreDesc a bs

/-- The `sort((a, b) => bScore - aScore)` step of `selectBestSolution`. -/
def sortByScoreDesc (l : List Solution) : List Solution :=
  l.foldl (fun acc a => insertByScoreDesc a acc) []

/-- `SolutionSearcher.selectBestSolution` (solutionSearcher.js): the first
valid candidate if any, else the stably highest-scoring candidate among the
non-errored attempts, else null. -/
def selectBestSolution (attempts : List SearchAttempt) : Option Solution :=
  let validSolutions := attempts.filter
    (fun a => a.solution?.isSome && a.isValidAttempt)
  match validSolutions.head? with
  | some a => a.solution?
  | none =>
    let solutionsWithCode := attempts.filterMap (·.solution?)
    (sortByScoreDesc solutionsWithCode).head?

/-- The retry loop of `SolutionSearcher.findSolution`.  `gen` models one
`generateSolution` request to the language-model collaborator: it receives
the attempt number and the previous failure reason and returns a candidate
or throws.  `remaining` counts the attempts still allowed; `calls` counts
the generator requests actually issued (instrumentation: the loop body
performs exactly one request per iteration).  On a thrown error the failure
feedback is left unchanged, as in the source. -/
def searchLoop (gen : Nat → Option String → Except String Solution)
    (attempt remaining : Nat) (lastFailure : Option String)
    (acc : List SearchAttempt) (calls : Nat) :
    List SearchAttempt × Nat :=
  match remaining with
  | 0 => (acc, calls)
  | r + 1 =>
    match gen attempt lastFailure with
    | .error e =>
      searchLoop gen (attempt + 1) r lastFailure
        (acc ++ [.failed attempt e]) (calls + 1)
    | .ok sol =>
      let v := validateSolution sol
      let acc1 := acc ++ [.made attempt sol v]
      if v.isValid then (acc1, calls + 1)
      else searchLoop gen (attempt + 1) r v.failureReason acc1 (calls + 1)

/-- Result object of `findSolution` (the fields that carry logic:
`attempts`, `bestSolution`, `totalAttempts`; plus the instrumented
generator-request count). -/
structure SearchResult where
  attempts : List SearchAttempt
  bestSolution : Option Solution
  totalAttempts : Nat
  generatorCalls : Nat
deriving DecidableEq

/-- `SolutionSearcher.findSolution` (solutionSearcher.js): up to
`maxAttempts` generate-validate rounds, stopping at the first valid
candidate, then best-candidate selection over the recorded attempts. -/
def findSolution (gen : Nat → Option String → Except String Solution)
    (maxAttempts : Nat) : SearchResult :=
  let res := searchLoop gen 1 maxAttempts none [] 0
  { attempts := res.1, bestSolution := selectBestSolution res.1,
    totalAttempts := res.1.length, generatorCalls := res.2 }

section SearchExamples

/-- An invalid candidate: no function, no export. -/
def badSol : Solution := { solution := "TODO: later" }

/-- A valid candidate: exported function, no placeholder markers. -/
def goodSol : Solution := { solution := "export function f() return 1" }

/-- Generator of the specification example for C5: attempts 1 and 2 fail
validation, attempt 3 passes. -/
def genPassThird : Nat → Option String → Except String Solution :=
  fun attempt _ => if attempt ≤ 2 then .ok badSol else .ok goodSol

example : (findSolution genPassThird 3).totalAttempts = 3 := by decide

example : (findSolution genPassThird 3).bestSolution = some goodSol := by
  decide

end SearchExamples

section SearchProofs

/-- The running best of the stable descending sort: the earliest candidate
with the maximal score. -/
def bestFrom (b : Solution) : List Solution → Solution
  | [] => b
  | a :: rest =>
    bestFrom (if calculateSolutionScore a > calculateSolutionScore b then a else b)
      rest

theorem insertByScoreDesc_head {b : Solution} (a : Solution)
    {acc : List Solution} (h : acc.head? = some b) :
    (insertByScoreDesc a acc).head? =
      some (if calculateSolutionScore a > calculateSolutionScore b then a
        else b) := by
  cases acc with
  | nil => cases h
  | cons x xs =>
    have hx : x = b := Option.some.inj h
    subst hx
    simp only [insertByScoreDesc]
    split <;> simp_all

theorem sortFold_head_eq_bestFrom :
    ∀ (rest acc : List Solution) (b : Solution), acc.head? = some b →
      (rest.foldl (fun acc a => insertByScoreDesc a acc) acc).head? =
        some (bestFrom b rest) := by
  intro rest
  induction rest with
  | nil => intro acc b h; simpa [bestFrom] using h
  | cons a rest ih =>
    intro acc b h
    simp only [List.foldl_cons, bestFrom]
    exact ih _ _ (insertByScoreDesc_head a h)

theorem bestFrom_spec :
    ∀ (rest : List Solution) (b : Solution),
      (bestFrom b rest = b ∧ ∀ x ∈ rest,
        calculateSolutionScore x ≤ calculateSolutionScore (bestFrom b rest)) ∨
      (∃ pre post, rest = pre ++ bestFrom b rest :: post ∧
        calculateSolutionScore b < calculateSolutionScore (bestFrom b rest) ∧
        (∀ x ∈ pre,
          calculateSolutionScore x < calculateSolutionScore (bestFrom b rest)) ∧
        (∀ x ∈ rest,
          calculateSolutionScore x ≤ calculateSolutionScore (bestFrom b rest))) := by
  intro rest
  induction rest with
  | nil => intro b; exact Or.inl ⟨rfl, by simp⟩
  | cons a rest ih =>
    intro b
    simp only [bestFrom]
    by_cases hab : calculateSolutionScore a > calculateSolutionScore b <;>
      simp only [hab, if_true, if_false, ite_true, ite_false]
    · rcases ih a with ⟨heq, hmax⟩ | ⟨pre, post, hsplit, hlt, hpre, hmax⟩
      · refine Or.inr ⟨[], rest, ?_, ?_, by simp, ?_⟩
        · rw [heq]; rfl
        · rw [heq]; exact hab
        · intro x hx
          rcases List.mem_cons.mp hx with h1 | h1
          · rw [h1, heq]
          · exact hmax x h1
      · refine Or.inr ⟨a :: pre, post, ?_, lt_trans hab hlt, ?_, ?_⟩
        · rw [List.cons_append, ← hsplit]
        · intro x hx
          rcases List.mem_cons.mp hx with h1 | h1
          · rw [h1]; exact hlt
          · exact hpre x h1
        · intro x hx
          rcases List.mem_cons.mp hx with h1 | h1
          · rw [h1]; exact le_of_lt hlt
          · exact hmax x h1
    · have hab' : calculateSolutionScore a ≤ calculateSolutionScore b :=
        not_lt.mp hab
      rcases ih b with ⟨heq, hmax⟩ | ⟨pre, post, hsplit, hlt, hpre, hmax⟩
      · refine Or.inl ⟨heq, ?_⟩
        intro x hx
        rcases List.mem_cons.mp hx with h1 | h1
        · rw [h1, heq]; exact hab'
        · exact hmax x h1
      · refine Or.inr ⟨a :: pre, post, ?_, hlt, ?_, ?_⟩
        · rw [List.cons_append, ← hsplit]
        · intro x hx
          rcases List.mem_cons.mp hx with h1 | h1
          · rw [h1]; exact lt_of_le_of_lt hab' hlt
          · exact hpre x h1
        · intro x hx
          rcases List.mem_cons.mp hx with h1 | h1
          · rw [h1]; exact le_of_lt (lt_of_le_of_lt hab' hlt)
          · exact hmax x h1

/-- The head of the stable descending sort of a nonempty candidate list is
the earliest candidate attaining the maximal score. -/
theorem bestHead_spec (a : Solution) (rest : List Solution) :
    ∃ c, (sortByScoreDesc (a :: rest)).head? = some c ∧
      (∃ pre post, a :: rest = pre ++ c :: post ∧
        ∀ x ∈ pre, calculateSolutionScore x < calculateSolutionScore c) ∧
      ∀ x ∈ a :: rest,
        calculateSolutionScore x ≤ calculateSolutionScore c := by
  have hhead : (sortByScoreDesc (a :: rest)).head? = some (bestFrom a rest) := by
    unfold sortByScoreDesc
    rw [List.foldl_cons]
    exact sortFold_head_eq_bestFrom rest (insertByScoreDesc a []) a rfl
  refine ⟨bestFrom a rest, hhead, ?_, ?_⟩
  · rcases bestFrom_spec rest a with ⟨heq, _⟩ | ⟨pre, post, hsplit, hlt, hpre, _⟩
    · exact ⟨[], rest, by simp [heq], by simp⟩
    · refine ⟨a :: pre, post, by rw [List.cons_append, ← hsplit], ?_⟩
      intro x hx
      rcases List.mem_cons.mp hx with h1 | h1
      · rw [h1]; exact hlt
      · exact hpre x h1
  · rcases bestFrom_spec rest a with ⟨heq, hmax⟩ | ⟨_, _, _, hlt, _, hmax⟩ <;>
      intro x hx <;> rcases List.mem_cons.mp hx with h1 | h1
    · rw [h1, heq]
    · exact hmax x h1
    · rw [h1]; exact le_of_lt hlt
    · exact hmax x h1

/-- When no attempt is valid and at least one produced a candidate,
`selectBestSolution` chooses the earliest top-scoring candidate under the
code's scoring function. -/
theorem selectBest_exhausted (attempts : List SearchAttempt)
    (hnone : ∀ e ∈ attempts, e.isValidAttempt = false)
    (hsome : ∃ e ∈ attempts, e.solution?.isSome) :
    ∃ c, selectBestSolution attempts = some c ∧
      c ∈ attempts.filterMap (·.solution?) ∧
      (∀ x ∈ attempts.filterMap (·.solution?),
        calculateSolutionScore x ≤ calculateSolutionScore c) ∧
      ∃ pre post, attempts.filterMap (·.solution?) = pre ++ c :: post ∧
        ∀ x ∈ pre, calculateSolutionScore x < calculateSolutionScore c := by
  unfold selectBestSolution
  have hfilter : attempts.filter
      (fun a => a.solution?.isSome && a.isValidAttempt) = [] := by
    rw [List.filter_eq_nil_iff]
    intro a ha
    simp [hnone a ha]
  rw [hfilter]
  obtain ⟨e, he, hes⟩ := hsome
  obtain ⟨sol0, hsol0⟩ := Option.isSome_iff_exists.mp hes
  have hmem0 : sol0 ∈ attempts.filterMap (·.solution?) :=
    List.mem_filterMap.mpr ⟨e, he, hsol0⟩
  cases hcand : attempts.filterMap (·.solution?) with
  | nil => rw [hcand] at hmem0; cases hmem0
  | cons a rest =>
    obtain ⟨c, hhead, hearliest, hmax⟩ := bestHead_spec a rest
    refine ⟨c, ?_, ?_, hmax, hearliest⟩
    · simpa [hcand] using hhead
    · obtain ⟨pre, post, hsplit, _⟩ := hearliest
      rw [hsplit]
      exact List.mem_append_right _ (List.mem_cons_self _ _)

theorem searchLoop_valid_last
    (gen : Nat → Option String → Except String Solution) :
    ∀ (remaining attempt : Nat) (lastFailure : Option String)
      (acc : List SearchAttempt) (calls : Nat),
      (∀ e ∈ acc, e.isValidAttempt = false) →
      (∀ e ∈ (searchLoop gen attempt remaining lastFailure acc calls).1,
        e.isValidAttempt = false) ∨
      (∃ pre n sol v,
        (searchLoop gen attempt remaining lastFailure acc calls).1 =
          pre ++ [.made n sol v] ∧ v.isValid = true ∧
        ∀ e ∈ pre, e.isValidAttempt = false) := by
  intro remaining
  induction remaining with
  | zero => intro attempt lf acc calls hacc; exact Or.inl hacc
  | succ r ih =>
    intro attempt lf acc calls hacc
    simp only [searchLoop]
    split
    · refine ih _ _ _ _ ?_
      intro x hx
      rcases List.mem_append.mp hx with h1 | h1
      · exact hacc x h1
      · simp only [List.mem_singleton] at h1
        rw [h1]; rfl
    · rename_i sol hgen
      cases hv : (validateSolution sol).isValid
      · rw [if_neg (by simp [hv])]
        refine ih _ _ _ _ ?_
        intro x hx
        rcases List.mem_append.mp hx with h1 | h1
        · exact hacc x h1
        · simp only [List.mem_singleton] at h1
          rw [h1]
          simpa [SearchAttempt.isValidAttempt] using hv
      · rw [if_pos rfl]
        exact Or.inr ⟨acc, attempt, sol, validateSolution sol, rfl, hv, hacc⟩

/-- Each loop iteration issues exactly one generator request and records
exactly one attempt, and the loop runs at most `remaining` iterations. -/
theorem searchLoop_len_calls
    (gen : Nat → Option String → Except String Solution) :
    ∀ (remaining attempt : Nat) (lastFailure : Option String)
      (acc : List SearchAttempt) (calls : Nat),
      (searchLoop gen attempt remaining lastFailure acc calls).1.length +
          calls =
        (searchLoop gen attempt remaining lastFailure acc calls).2 +
          acc.length ∧
      (searchLoop gen attempt remaining lastFailure acc calls).1.length ≤
        acc.length + remaining := by
  intro remaining
  induction remaining with
  | zero =>
    intro attempt lf acc calls
    constructor
    · show acc.length + calls = calls + acc.length
      omega
    · show acc.length ≤ acc.length + 0
      omega
  | succ r ih =>
    intro attempt lf acc calls
    simp only [searchLoop]
    split
    · rename_i e hgen
      obtain ⟨h1, h2⟩ := ih (attempt + 1) lf
        (acc ++ [.failed attempt e]) (calls + 1)
      rw [List.length_append, List.length_singleton] at h1 h2
      exact ⟨by omega, by omega⟩
    · rename_i sol hgen
      cases hv : (validateSolution sol).isValid
      · rw [if_neg (by simp [hv])]
        obtain ⟨h1, h2⟩ := ih (attempt + 1)
          ((validateSolution sol).failureReason)
          (acc ++ [.made attempt sol (validateSolution sol)]) (calls + 1)
        rw [List.length_append, List.length_singleton] at h1 h2
        exact ⟨by omega, by omega⟩
      · rw [if_pos rfl]
        constructor
        · show (acc ++ [SearchAttempt.made attempt sol (validateSolution sol)]).length +
              calls = (calls + 1) + acc.length
          rw [List.length_append, List.length_singleton]
          omega
        · show (acc ++ [SearchAttempt.made attempt sol (validateSolution sol)]).length ≤
              acc.length + (r + 1)
          rw [List.length_append, List.length_singleton]
          omega

theorem selectBest_of_valid_last (pre : List SearchAttempt) (n : Nat)
    (sol : Solution) (v : Validation)
    (hpre : ∀ e ∈ pre, e.isValidAttempt = false) (hv : v.isValid = true) :
    selectBestSolution (pre ++ [.made n sol v]) = some sol := by
  unfold selectBestSolution
  have hfilter : (pre ++ [SearchAttempt.made n sol v]).filter
      (fun a => a.solution?.isSome && a.isValidAttempt) =
        [SearchAttempt.made n sol v] := by
    rw [List.filter_append]
    have h1 : pre.filter (fun a => a.solution?.isSome && a.isValidAttempt) = [] := by
      rw [List.filter_eq_nil_iff]
      intro a ha
      simp [hpre a ha]
    rw [h1]
    simp [SearchAttempt.isValidAttempt, SearchAttempt.solution?, hv]
  rw [hfilter]
  rfl

end SearchProofs

section SearchClaims

/-- An invalid candidate carrying the structured-comment and error-handling
markers only (code score 30, documented spec score 30). -/
def solComment : Solution :=
  { solution := "/** aaaaaaaaaaaaaaaaaaaaaaaaaaaaaaaaaaaaaaaaaaaaa try zzz" }

/-- An invalid candidate carrying the executable-logic and the low-weight
`test` markers only (code score 35, documented spec score 20). -/
def solFunc : Solution :=
  { solution := "function thing does value compute zzzzzzzzzzzzzzzzzz test" }

/-- Generator producing `solComment` on attempt 1 and `solFunc` on
attempt 2. -/
def genExhausted : Nat → Option String → Except String Solution :=
  fun attempt _ => if attempt = 1 then .ok solComment else .ok solFunc

example : calculateSolutionScore solComment = 30 := by decide

example : calculateSolutionScore solFunc = 35 := by decide

example : specHeuristicScore solComment = 30 := by decide

example : specHeuristicScore solFunc = 20 := by decide

/-- C4 counterexample: in a two-attempt exhausted search whose candidates
both fail validation, the code chooses `solFunc` (its own score 35 beats
30) although the documented heuristic of the specification scores the
earlier `solComment` strictly higher (30 against 20); the chosen candidate
therefore does not maximize the documented score. -/
theorem search_claim_best_cex :
    (∀ e ∈ (findSolution genExhausted 2).attempts,
      e.isValidAttempt = false) ∧
      (findSolution genExhausted 2).bestSolution = some solFunc ∧
      solComment ∈ (findSolution genExhausted 2).attempts.filterMap
        (fun a => a.solution?) ∧
      specHeuristicScore solComment > specHeuristicScore solFunc := by
  decide

/-- C4 (amended): for every search invocation in which no attempt passes
validation and at least one attempt produced a candidate, the chosen best
candidate is the one maximizing the code's score (`calculateSolutionScore`:
+10 executable-logic marker, +10 exported symbol, +5 structured-comment
marker, +5 error-handling marker, +5 test marker, +10 if no TODO marker,
+10 if no thrown-placeholder marker, −10 below the length threshold, −5 low
effort marker), with ties broken in favor of the earliest attempt. -/
theorem search_claim_best_of_exhausted
    (gen : Nat → Option String → Except String Solution) (maxAttempts : Nat)
    (hnone : ∀ e ∈ (findSolution gen maxAttempts).attempts,
      e.isValidAttempt = false)
    (hsome : ∃ e ∈ (findSolution gen maxAttempts).attempts,
      e.solution?.isSome) :
    ∃ c, (findSolution gen maxAttempts).bestSolution = some c ∧
      c ∈ (findSolution gen maxAttempts).attempts.filterMap
        (fun a => a.solution?) ∧
      (∀ x ∈ (findSolution gen maxAttempts).attempts.filterMap
        (fun a => a.solution?),
        calculateSolutionScore x ≤ calculateSolutionScore c) ∧
      ∃ pre post,
        (findSolution gen maxAttempts).attempts.filterMap
          (fun a => a.solution?) = pre ++ c :: post ∧
        ∀ x ∈ pre, calculateSolutionScore x < calculateSolutionScore c :=
  selectBest_exhausted (findSolution gen maxAttempts).attempts hnone hsome

/-- C4 witness: the hypotheses of `search_claim_best_of_exhausted` hold for
the concrete exhausted two-attempt search. -/
theorem search_claim_best_of_exhausted_witness :
    (∀ e ∈ (findSolution genExhausted 2).attempts,
      e.isValidAttempt = false) ∧
      ∃ c, (findSolution genExhausted 2).bestSolution = some c ∧
        c ∈ (findSolution genExhausted 2).attempts.filterMap
          (fun a => a.solution?) ∧
        (∀ x ∈ (findSolution genExhausted 2).attempts.filterMap
          (fun a => a.solution?),
          calculateSolutionScore x ≤ calculateSolutionScore c) ∧
        ∃ pre post,
          (findSolution genExhausted 2).attempts.filterMap
            (fun a => a.solution?) = pre ++ c :: post ∧
          ∀ x ∈ pre, calculateSolutionScore x < calculateSolutionScore c :=
  ⟨by decide, search_claim_best_of_exhausted genExhausted 2 (by decide)
    (by decide)⟩

/-- C5: whenever some attempt of a search invocation passes validation, the
loop stops at the first such attempt: the attempt list ends at the (unique)
valid attempt, every earlier attempt is invalid, the chosen candidate is
exactly that attempt's candidate, and no further generator request is made
(requests equal recorded attempts). -/
theorem search_claim_first_pass
    (gen : Nat → Option String → Except String Solution) (maxAttempts : Nat)
    (hvalid : ∃ a ∈ (findSolution gen maxAttempts).attempts,
      a.isValidAttempt = true) :
    ∃ pre n sol v,
      (findSolution gen maxAttempts).attempts =
        pre ++ [SearchAttempt.made n sol v] ∧
      v.isValid = true ∧ (∀ e ∈ pre, e.isValidAttempt = false) ∧
      (findSolution gen maxAttempts).bestSolution = some sol ∧
      (findSolution gen maxAttempts).totalAttempts = pre.length + 1 ∧
      (findSolution gen maxAttempts).generatorCalls = pre.length + 1 := by
  obtain ⟨a, ha, hav⟩ := hvalid
  rcases searchLoop_valid_last gen maxAttempts 1 none [] 0 (by simp)
    with hall | ⟨pre, n, sol, v, hsplit, hv, hpre⟩
  · rw [hall a ha] at hav
    cases hav
  · have hlen : (searchLoop gen 1 maxAttempts none [] 0).1.length =
        pre.length + 1 := by
      rw [hsplit]
      simp
    refine ⟨pre, n, sol, v, hsplit, hv, hpre, ?_, hlen, ?_⟩
    · show selectBestSolution (searchLoop gen 1 maxAttempts none [] 0).1 =
        some sol
      rw [hsplit]
      exact selectBest_of_valid_last pre n sol v hpre hv
    · show (searchLoop gen 1 maxAttempts none [] 0).2 = pre.length + 1
      obtain ⟨heq, _⟩ := searchLoop_len_calls gen maxAttempts 1 none [] 0
      simp only [List.length_nil] at heq
      omega

/-- C5 witness: the specification's example (attempts 1 and 2 fail
validation, attempt 3 passes) instantiates `search_claim_first_pass`. -/
theorem search_claim_first_pass_witness :
    (∃ a ∈ (findSolution genPassThird 3).attempts,
      a.isValidAttempt = true) ∧
      ∃ pre n sol v,
        (findSolution genPassThird 3).attempts =
          pre ++ [SearchAttempt.made n sol v] ∧
        v.isValid = true ∧ (∀ e ∈ pre, e.isValidAttempt = false) ∧
        (findSolution genPassThird 3).bestSolution = some sol ∧
        (findSolution genPassThird 3).totalAttempts = pre.length + 1 ∧
        (findSolution genPassThird 3).generatorCalls = pre.length + 1 :=
  ⟨by decide, search_claim_first_pass genPassThird 3 (by decide)⟩

/-- C8: for every generator behavior and attempt budget of at least one,
a search invocation terminates (the embedding is a total function) with at
most `maxAttempts` recorded attempts and issues exactly one generator
request per recorded attempt, hence at most `maxAttempts` requests. -/
theorem search_claim_attempt_budget
    (gen : Nat → Option String → Except String Solution) (maxAttempts : Nat)
    (hpos : 1 ≤ maxAttempts) :
    (findSolution gen maxAttempts).totalAttempts ≤ maxAttempts ∧
      (findSolution gen maxAttempts).attempts.length ≤ maxAttempts ∧
      (findSolution gen maxAttempts).generatorCalls =
        (findSolution gen maxAttempts).attempts.length ∧
      (findSolution gen maxAttempts).generatorCalls ≤ maxAttempts := by
  obtain ⟨heq, hle⟩ := searchLoop_len_calls gen maxAttempts 1 none [] 0
  simp only [List.length_nil] at heq hle
  refine ⟨?_, ?_, ?_, ?_⟩
  · show (searchLoop gen 1 maxAttempts none [] 0).1.length ≤ maxAttempts
    omega
  · show (searchLoop gen 1 maxAttempts none [] 0).1.length ≤ maxAttempts
    omega
  · show (searchLoop gen 1 maxAttempts none [] 0).2 =
      (searchLoop gen 1 maxAttempts none [] 0).1.length
    omega
  · show (searchLoop gen 1 maxAttempts none [] 0).2 ≤ maxAttempts
    omega

/-- C8 witness: the budget bound instantiated at the three-attempt
example. -/
theorem search_claim_attempt_budget_witness :
    1 ≤ 3 ∧
      (findSolution genPassThird 3).totalAttempts ≤ 3 ∧
      (findSolution genPassThird 3).attempts.length ≤ 3 ∧
      (findSolution genPassThird 3).generatorCalls =
        (findSolution genPassThird 3).attempts.length ∧
      (findSolution genPassThird 3).generatorCalls ≤ 3 :=
  ⟨by decide, search_claim_attempt_budget genPassThird 3 (by decide)⟩

end SearchClaims

section DecomposerDefs

/-- A raw subtask as delivered by the language-model collaborator, before
normalization.  `none` models a missing field; for `dependencies` and
`acceptanceCriteria` it also models a non-array value (the code checks
`Array.isArray`). -/
structure RawSubtask where
  id : Option String := none
  title : Option String := none
  description : Option String := none
  priority : Option String := none
  estimatedComplexity : Option Int := none
  dependencies : Option (List String) := none
  acceptanceCriteria : Option (List String) := none
deriving DecidableEq

/-- The raw decomposition result (`result.subtasks`); metadata carries no
logic relevant to the claims and is omitted. -/
structure RawDecomposition where
  subtasks : List RawSubtask
deriving DecidableEq

/-- A decomposition result; the metadata block (subtask count, complexity
sum, reasoning text) is derived data and omitted. -/
structure Decomposition where
  originalTask : String
  subtasks : List Subtask
deriving DecidableEq

/-- JavaScript `v || d` on strings (`""` and a missing value are falsy). -/
def jsOrString (v : Option String) (d : String) : String :=
  match v with
  | none => d
  | some s => if s = "" then d else s

/-- JavaScript `a || b` where `b` itself may be missing
(`subtask.description || subtask.title`). -/
def jsOrStringOpt (a b : Option String) : Option String :=
  match a with
  | none => b
  | some s => if s = "" then b else some s

/-- JavaScript `v || d` on numbers (`0` and a missing value are falsy). -/
def jsOrInt (v : Option Int) (d : Int) : Int :=
  match v with
  | none => d
  | some n => if n = 0 then d else n

/-- JavaScript `v || d` on the numeric options of the constructors. -/
def jsOrNat (v : Option Nat) (d : Nat) : Nat :=
  match v with
  | none => d
  | some n => if n = 0 then d else n

/-- The constructor default
`options.maxSubtasks || parseInt(process.env.UA_MAX_SUBTASKS) || 10`. -/
def resolveMaxSubtasks (optionsMax envMax : Option Nat) : Nat :=
  jsOrNat optionsMax (jsOrNat envMax 10)

/-- The per-subtask cleanup of `processDecompositionResult` (decomposer.js);
`index` is the 0-based map index. -/
def normalizeSubtask (index : Nat) (r : RawSubtask) : Subtask :=
  { id := jsOrString r.id ("subtask-" ++ toString (index + 1)),
    title := jsOrString r.title ("Subtask " ++ toString (index + 1)),
    description := jsOrStringOpt r.description r.title,
    priority := jsOrString r.priority "medium",
    estimatedComplexity := max 1 (min 10 (jsOrInt r.estimatedComplexity 5)),
    dependencies := r.dependencies.getD [],
    acceptanceCriteria := r.acceptanceCriteria.getD [] }

/-- `subtasks.map((subtask, index) => ...)`: the indexed map of the
normalization step. -/
def normalizeList (index : Nat) : List RawSubtask → List Subtask
  | [] => []
  | r :: rest => normalizeSubtask index r :: normalizeList (index + 1) rest

/-- `TaskDecomposer.processDecompositionResult` (decomposer.js): truncate to
`maxSubtasks`, normalize each subtask, then drop dependencies whose target
id is absent from the normalized set. -/
def processDecompositionResult (maxSubtasks : Nat)
    (result : RawDecomposition) (originalTask : String) : Decomposition :=
  let subtasks0 := result.subtasks.take maxSubtasks
  let subtasks1 := normalizeList 0 subtasks0
  let subtaskIds := subtasks1.map (·.id)
  let subtasks2 := subtasks1.map (fun s =>
    { s with dependencies :=
        s.dependencies.filter (fun dep => subtaskIds.contains dep) })
  { originalTask := originalTask, subtasks := subtasks2 }

/-- `TaskDecomposer.createFallbackDecomposition` (decomposer.js): the fixed
four-subtask software-lifecycle decomposition returned when the language
model call fails. -/
def createFallbackDecomposition (taskDescription : String) : Decomposition :=
  { originalTask := taskDescription,
    subtasks := [
      { id := "subtask-1", title := "Analyze Requirements",
        description := some ("Analyze and understand the requirements for: "
          ++ taskDescription),
        priority := "high", estimatedComplexity := 3, dependencies := [],
        acceptanceCriteria := ["Requirements are clearly documented",
          "Edge cases are identified"] },
      { id := "subtask-2", title := "Design Solution",
        description := some "Design the solution architecture and approach",
        priority := "high", estimatedComplexity := 5,
        dependencies := ["subtask-1"],
        acceptanceCriteria := ["Solution design is documented",
          "Technical approach is defined"] },
      { id := "subtask-3", title := "Implement Solution",
        description := some "Implement the solution based on the design",
        priority := "high", estimatedComplexity := 7,
        dependencies := ["subtask-2"],
        acceptanceCriteria := ["Implementation is complete",
          "Code follows best practices"] },
      { id := "subtask-4", title := "Test Solution",
        description := some "Test the implemented solution thoroughly",
        priority := "medium", estimatedComplexity := 4,
        dependencies := ["subtask-3"],
        acceptanceCriteria := ["All tests pass",
          "Edge cases are covered"] } ] }

/-- `TaskDecomposer.decompose` (decomposer.js): process the collaborator
result; on any thrown error fall back to the fixed decomposition.  The
function always returns a decomposition and never throws. -/
def decompose (maxSubtasks : Nat) (taskDescription : String)
    (llmResult : Except String RawDecomposition) : Decomposition :=
  match llmResult with
  | .ok result => processDecompositionResult maxSubtasks result taskDescription
  | .error _ => createFallbackDecomposition taskDescription

end DecomposerDefs

section DecomposerProofs

theorem normalizeList_get? :
    ∀ (l : List RawSubtask) (k i : Nat),
      (normalizeList k l).get? i =
        (l.get? i).map (fun r => normalizeSubtask (k + i) r) := by
  intro l
  induction l with
  | nil => intro k i; simp [normalizeList]
  | cons r rest ih =>
    intro k i
    cases i with
    | zero => simp [normalizeList]
    | succ j =>
      show (normalizeList (k + 1) rest).get? j =
        (rest.get? j).map (fun r => normalizeSubtask (k + (j + 1)) r)
      rw [ih (k + 1) j]
      have hk : k + 1 + j = k + (j + 1) := by omega
      rw [hk]

theorem normalizeList_length (l : List RawSubtask) :
    ∀ k, (normalizeList k l).length = l.length := by
  induction l with
  | nil => intro k; rfl
  | cons r rest ih => intro k; simp [normalizeList, ih]

/-- The ids of the result of `processDecompositionResult` are the ids of the
normalized truncated list (the dependency filter does not touch ids). -/
theorem process_ids (m : Nat) (raw : RawDecomposition) (desc : String) :
    (processDecompositionResult m raw desc).subtasks.map (·.id) =
      (normalizeList 0 (raw.subtasks.take m)).map (·.id) := by
  unfold processDecompositionResult
  simp

theorem process_get? (m : Nat) (raw : RawDecomposition) (desc : String)
    (i : Nat) :
    (processDecompositionResult m raw desc).subtasks.get? i =
      ((raw.subtasks.take m).get? i).map (fun r =>
        let s := normalizeSubtask i r
        { s with dependencies := s.dependencies.filter (fun dep =>
            ((normalizeList 0 (raw.subtasks.take m)).map (·.id)).contains dep) }) := by
  unfold processDecompositionResult
  simp only [List.get?_map, normalizeList_get?, Nat.zero_add]
  cases (raw.subtasks.take m).get? i <;> rfl

/-- Every dependency surviving normalization names a subtask of the
result. -/
theorem process_deps_resolvable (m : Nat) (raw : RawDecomposition)
    (desc : String) :
    ∀ s ∈ (processDecompositionResult m raw desc).subtasks,
      ∀ d ∈ s.dependencies,
        d ∈ (processDecompositionResult m raw desc).subtasks.map (·.id) := by
  intro s hs d hd
  rw [process_ids]
  unfold processDecompositionResult at hs
  simp only [List.mem_map] at hs
  obtain ⟨s1, hs1, hs1eq⟩ := hs
  rw [← hs1eq] at hd
  simp only [List.mem_filter] at hd
  simpa using hd.2

end DecomposerProofs

section DecomposerClaims

/-- C6 counterexample: for the raw result with zero subtasks, `decompose`
returns a decomposition with zero subtasks; it does not fail (the embedding
is a total function into `Decomposition`, mirroring the source, which
catches every error and falls back instead of throwing an `InvalidGraph`
error). -/
theorem decomp_claim_invalid_graph_cex :
    (decompose 10 "task" (.ok { subtasks := [] })).subtasks = [] ∧
      decompose 10 "task" (.error "llm failed") =
        createFallbackDecomposition "task" := by
  constructor
  · rfl
  · rfl

/-- C6 (amended): `decompose` never fails: when the collaborator call
throws, it returns the fixed four-subtask fallback decomposition, and when
normalization produces zero subtasks it returns a decomposition with zero
subtasks instead of raising an error. -/
theorem decomp_claim_no_failure (maxSubtasks : Nat) (desc : String)
    (raw : Except String RawDecomposition) :
    (∀ e, raw = .error e →
      (decompose maxSubtasks desc raw).subtasks.length = 4) ∧
    (∀ r, raw = .ok r → r.subtasks = [] →
      (decompose maxSubtasks desc raw).subtasks = []) := by
  constructor
  · intro e he
    rw [he]
    rfl
  · intro r hr hempty
    rw [hr]
    show (processDecompositionResult maxSubtasks r desc).subtasks = []
    simp [processDecompositionResult, hempty, normalizeList]

/-- C6 witness: both branches of `decomp_claim_no_failure` at concrete
inputs. -/
theorem decomp_claim_no_failure_witness :
    (decompose 10 "t" (.error "boom")).subtasks.length = 4 ∧
      (decompose 10 "t" (.ok { subtasks := [] })).subtasks = [] :=
  ⟨(decomp_claim_no_failure 10 "t" (.error "boom")).1 "boom" rfl,
    (decomp_claim_no_failure 10 "t" (.ok { subtasks := [] })).2
      { subtasks := [] } rfl rfl⟩

/-- Raw subtask whose complexity is the falsy value 0. -/
def rawZeroComplexity : RawSubtask :=
  { id := some "s1", estimatedComplexity := some 0 }

/-- C9 counterexample: an input complexity of 0 is not clamped into [1,10]
(clamping would give 1) but replaced by the default 5, because `0` is falsy
in `subtask.estimatedComplexity || 5`. -/
theorem decomp_claim_normalization_cex :
    ((processDecompositionResult 10 { subtasks := [rawZeroComplexity] }
      "t").subtasks.map (·.estimatedComplexity)) = [5] ∧
      ¬ ((5 : Int) = max 1 (min 10 0)) := by
  decide

/-- C9 (amended): normalization assigns the deterministic id `subtask-N` by
original position when the id is missing, defaults a missing priority to
medium, coerces missing or non-list dependency and acceptance-criteria
fields to empty lists, keeps exactly the dependencies whose id names a
subtask of the normalized set, and produces a complexity in [1,10] equal to
the clamp of the input whenever the input is present and nonzero; a missing
or zero complexity becomes the default 5. -/
theorem decomp_claim_normalization (m : Nat) (raw : RawDecomposition)
    (desc : String) (i : Nat) (r : RawSubtask) (s : Subtask)
    (hr : (raw.subtasks.take m).get? i = some r)
    (hs : (processDecompositionResult m raw desc).subtasks.get? i = some s) :
    (r.id = none → s.id = "subtask-" ++ toString (i + 1)) ∧
    s.estimatedComplexity = max 1 (min 10 (jsOrInt r.estimatedComplexity 5)) ∧
    1 ≤ s.estimatedComplexity ∧ s.estimatedComplexity ≤ 10 ∧
    (∀ c, r.estimatedComplexity = some c → c ≠ 0 →
      s.estimatedComplexity = max 1 (min 10 c)) ∧
    (r.priority = none → s.priority = "medium") ∧
    (r.dependencies = none → s.dependencies = []) ∧
    (r.acceptanceCriteria = none → s.acceptanceCriteria = []) ∧
    (∀ d ∈ s.dependencies,
      d ∈ (processDecompositionResult m raw desc).subtasks.map (·.id)) := by
  have hmem : s ∈ (processDecompositionResult m raw desc).subtasks :=
    List.get?_mem hs
  rw [process_get?, hr] at hs
  have hseq := (Option.some.inj hs).symm
  refine ⟨?_, ?_, ?_, ?_, ?_, ?_, ?_, ?_,
    fun d hd => process_deps_resolvable m raw desc s hmem d hd⟩
  · intro hid
    rw [hseq]
    simp [normalizeSubtask, jsOrString, hid]
  · rw [hseq]
    rfl
  · rw [hseq]
    show (1 : Int) ≤ max 1 (min 10 (jsOrInt r.estimatedComplexity 5))
    exact le_max_left _ _
  · rw [hseq]
    show max 1 (min 10 (jsOrInt r.estimatedComplexity 5)) ≤ (10 : Int)
    exact max_le (by norm_num) (min_le_left _ _)
  · intro c hc hc0
    rw [hseq]
    show max 1 (min 10 (jsOrInt r.estimatedComplexity 5)) = max 1 (min 10 c)
    rw [hc]
    simp [jsOrInt, hc0]
  · intro hp
    rw [hseq]
    simp [normalizeSubtask, jsOrString, hp]
  · intro hdep
    rw [hseq]
    simp [normalizeSubtask, hdep]
  · intro hac
    rw [hseq]
    simp [normalizeSubtask, hac]

/-- Raw input for the C9 witness: missing id, priority and list fields,
complexity 42. -/
def rawOversized : RawSubtask := { estimatedComplexity := some 42 }

/-- Normalized form of `rawOversized` at position 0. -/
def normOversized : Subtask :=
  { id := "subtask-1", title := "Subtask 1", description := none,
    priority := "medium", estimatedComplexity := 10, dependencies := [],
    acceptanceCriteria := [] }

/-- C9 witness: the normalization properties instantiated at a concrete raw
subtask. -/
theorem decomp_claim_normalization_witness :
    (rawOversized.id = none → normOversized.id = "subtask-" ++ toString 1) ∧
    normOversized.estimatedComplexity =
      max 1 (min 10 (jsOrInt rawOversized.estimatedComplexity 5)) ∧
    1 ≤ normOversized.estimatedComplexity ∧
    normOversized.estimatedComplexity ≤ 10 ∧
    (∀ c, rawOversized.estimatedComplexity = some c → c ≠ 0 →
      normOversized.estimatedComplexity = max 1 (min 10 c)) ∧
    (rawOversized.priority = none → normOversized.priority = "medium") ∧
    (rawOversized.dependencies = none → normOversized.dependencies = []) ∧
    (rawOversized.acceptanceCriteria = none →
      normOversized.acceptanceCriteria = []) ∧
    (∀ d ∈ normOversized.dependencies,
      d ∈ (processDecompositionResult 10 { subtasks := [rawOversized] }
        "t").subtasks.map (·.id)) :=
  decomp_claim_normalization 10 { subtasks := [rawOversized] } "t" 0
    rawOversized normOversized (by decide) (by decide)

/-- C10: normalization silently truncates the subtask list to at most
`maxSubtasks` entries before any other processing (processing the truncated
list gives the same result), discards the later subtasks without error, and
the dependency filter then drops every dependency naming a truncated
subtask (all surviving dependencies name subtasks of the result); the
constructor default for `maxSubtasks` is 10 when neither the options nor
the environment configure it. -/
theorem decomp_claim_truncation (m : Nat) (raw : RawDecomposition)
    (desc : String) :
    (processDecompositionResult m raw desc).subtasks.length =
      min m raw.subtasks.length ∧
    processDecompositionResult m raw desc =
      processDecompositionResult m { subtasks := raw.subtasks.take m } desc ∧
    (∀ s ∈ (processDecompositionResult m raw desc).subtasks,
      ∀ d ∈ s.dependencies,
        d ∈ (processDecompositionResult m raw desc).subtasks.map (·.id)) ∧
    resolveMaxSubtasks none none = 10 := by
  refine ⟨?_, ?_, process_deps_resolvable m raw desc, rfl⟩
  · unfold processDecompositionResult
    simp [normalizeList_length, List.length_take]
  · unfold processDecompositionResult
    simp [List.take_take]

/-- Raw input for the C10 witness: three subtasks, the first depending on
both the surviving second and the truncated third. -/
def rawTrunc : RawDecomposition :=
  { subtasks := [
      { id := some "s1", dependencies := some ["s3", "s2"] },
      { id := some "s2" },
      { id := some "s3" } ] }

/-- C10 witness: truncation to two subtasks at a concrete input; the
dependency on the truncated `s3` is dropped. -/
theorem decomp_claim_truncation_witness :
    ((processDecompositionResult 2 rawTrunc "t").subtasks.length =
        min 2 rawTrunc.subtasks.length ∧
      processDecompositionResult 2 rawTrunc "t" =
        processDecompositionResult 2
          { subtasks := rawTrunc.subtasks.take 2 } "t" ∧
      (∀ s ∈ (processDecompositionResult 2 rawTrunc "t").subtasks,
        ∀ d ∈ s.dependencies,
          d ∈ (processDecompositionResult 2 rawTrunc "t").subtasks.map
            (·.id)) ∧
      resolveMaxSubtasks none none = 10) ∧
      (processDecompositionResult 2 rawTrunc "t").subtasks.map
        (·.dependencies) = [["s2"], []] :=
  ⟨decomp_claim_truncation 2 rawTrunc "t", by decide⟩

end DecomposerClaims

section OrchestratorDefs

/-- The workflow phases of `UniversalAlgorithm` (orchestrator.js), plus the
error phase set by the catch handler of `solve`. -/
inductive Phase where
  | idle
  | decomposition
  | issue_creation
  | test_generation
  | solution_search
  | solution_composition
  | completed
  | failed
deriving DecidableEq

/-- The external collaborators and configuration of one `solve` run.  Each
`Except`-valued field models one awaited collaborator call that may throw;
numeric payloads stand for issue and pull-request numbers, string payloads
for generated documents.  (The source passes the subtask and test code to
the solution generator; the model folds that dependence into the
environment, which is irrelevant to the phase flow.) -/
structure OrchestratorEnv where
  llmDecomposition : Except String RawDecomposition
  createIssue : Except String Nat
  createSubIssue : Subtask → Except String Nat
  generateTest : Subtask → Except String String
  createTestPR : Subtask → String → Except String Nat
  generateSolution : Nat → Option String → Except String Solution
  createSolutionPR : Subtask → Solution → Except String Nat
  composeSolutions : List Solution → Except String String
  addComment : Except String Unit
  maxSubtasks : Nat
  maxAttempts : Nat

/-- The workflow state of the orchestrator.  `trace` is instrumentation: it
records, in order, every phase assigned to `workflowState.phase`. -/
structure WorkflowState where
  phase : Phase
  trace : List Phase
  decomposition : Option Decomposition
  subIssues : List (Nat × Subtask)
  tests : List (Nat × Subtask × String)
  solutions : List (Nat × Solution)
  composition : Option String
  error : Option String
deriving DecidableEq

/-- `this.workflowState.phase = p` (every phase method starts with it). -/
def enterPhase (st : WorkflowState) (p : Phase) : WorkflowState :=
  { st with phase := p, trace := st.trace ++ [p] }

/-- The initial workflow state of the constructor. -/
def initialWorkflowState : WorkflowState :=
  { phase := .idle, trace := [], decomposition := none, subIssues := [],
    tests := [], solutions := [], composition := none, error := none }

/-- Phase 1, `executeDecomposition`: set the phase and store the
decomposition.  `decompose` never throws (it falls back), so this phase
always succeeds. -/
def executeDecomposition (env : OrchestratorEnv) (taskDescription : String)
    (st : WorkflowState) : Except (String × WorkflowState) WorkflowState :=
  let st := enterPhase st .decomposition
  .ok { st with
        decomposition :=
          some (decompose env.maxSubtasks taskDescription env.llmDecomposition) }

/-- The `for (const subtask of decomposition.subtasks)` loop of phase 2: a
failing `createSubIssue` call aborts the whole phase. -/
def createSubIssues (env : OrchestratorEnv) :
    List Subtask → Except String (List (Nat × Subtask))
  | [] => .ok []
  | s :: rest =>
    match env.createSubIssue s with
    | .error e => .error e
    | .ok num =>
      match createSubIssues env rest with
      | .error e => .error e
      | .ok tail => .ok ((num, s) :: tail)

/-- Phase 2, `executeIssueCreation`: create the main issue, then one
sub-issue per subtask; errors propagate to `solve`. -/
def executeIssueCreation (env : OrchestratorEnv) (st : WorkflowState) :
    Except (String × WorkflowState) WorkflowState :=
  let st := enterPhase st .issue_creation
  match st.decomposition with
  | none => .error ("no decomposition", st)
  | some decomp =>
    match env.createIssue with
    | .error e => .error (e, st)
    | .ok _mainIssue =>
      match createSubIssues env decomp.subtasks with
      | .error e => .error (e, st)
      | .ok subIssues => .ok { st with subIssues := subIssues }

/-- The per-subissue loop of phase 3: a failing test generation or test
pull-request call is caught, logged, and iteration continues. -/
def generateTests (env : OrchestratorEnv) :
    List (Nat × Subtask) → List (Nat × Subtask × String)
  | [] => []
  | (num, s) :: rest =>
    match env.generateTest s with
    | .error _ => generateTests env rest
    | .ok code =>
      match env.createTestPR s code with
      | .error _ => generateTests env rest
      | .ok _pr => (num, s, code) :: generateTests env rest

/-- Phase 3, `executeTestGeneration`: per-subtask try/catch, so the phase
itself always succeeds. -/
def executeTestGeneration (env : OrchestratorEnv) (st : WorkflowState) :
    Except (String × WorkflowState) WorkflowState :=
  let st := enterPhase st .test_generation
  .ok { st with tests := generateTests env st.subIssues }

/-- The per-test loop of phase 4: `findSolution` itself never throws; a
subtask without a best solution is skipped, and a failing solution
pull-request call is caught and the iteration continues. -/
def searchSolutions (env : OrchestratorEnv) :
    List (Nat × Subtask × String) → List (Nat × Solution)
  | [] => []
  | (_num, s, _testCode) :: rest =>
    match (findSolution env.generateSolution env.maxAttempts).bestSolution with
    | none => searchSolutions env rest
    | some best =>
      match env.createSolutionPR s best with
      | .error _ => searchSolutions env rest
      | .ok pr => (pr, best) :: searchSolutions env rest

/-- Phase 4, `executeSolutionSearch`: per-subtask try/catch, so the phase
itself always succeeds. -/
def executeSolutionSearch (env : OrchestratorEnv) (st : WorkflowState) :
    Except (String × WorkflowState) WorkflowState :=
  let st := enterPhase st .solution_search
  .ok { st with solutions := searchSolutions env st.tests }

/-- Phase 5, `executeSolutionComposition`: throws when no partial solutions
exist, otherwise composes them. -/
def executeSolutionComposition (env : OrchestratorEnv) (st : WorkflowState) :
    Except (String × WorkflowState) WorkflowState :=
  let st := enterPhase st .solution_composition
  let partialSolutions := st.solutions.map (·.2)
  if partialSolutions.length = 0 then
    .error ("No valid partial solutions found for composition", st)
  else
    match env.composeSolutions partialSolutions with
    | .error e => .error (e, st)
    | .ok comp => .ok { st with composition := some comp }

/-- `completeWorkflow`: set the phase to completed and post the completion
comment (which may itself throw). -/
def completeWorkflow (env : OrchestratorEnv) (st : WorkflowState) :
    Except (String × WorkflowState) WorkflowState :=
  let st := enterPhase st .completed
  match env.addComment with
  | .error e => .error (e, st)
  | .ok _ => .ok st

/-- `UniversalAlgorithm.solve` (orchestrator.js): the five phases and the
completion step in sequence; any error sets the phase to `failed`, records
the message, and the state is returned (the source additionally re-throws
the error to its caller). -/
def solve (env : OrchestratorEnv) (taskDescription : String) :
    WorkflowState :=
  let run : Except (String × WorkflowState) WorkflowState :=
    match executeDecomposition env taskDescription initialWorkflowState with
    | .error e => .error e
    | .ok st1 =>
      match executeIssueCreation env st1 with
      | .error e => .error e
      | .ok st2 =>
        match executeTestGeneration env st2 with
        | .error e => .error e
        | .ok st3 =>
          match executeSolutionSearch env st3 with
          | .error e => .error e
          | .ok st4 =>
            match executeSolutionComposition env st4 with
            | .error e => .error e
            | .ok st5 => completeWorkflow env st5
  match run with
  | .ok st => st
  | .error (e, st) =>
    { enterPhase st .failed with error := some e }

end OrchestratorDefs

section OrchestratorClaims

/-- A raw decomposition with a two-subtask dependency cycle. -/
def rawCyclic : RawDecomposition :=
  { subtasks := [
      { id := some "A", dependencies := some ["B"] },
      { id := some "B", dependencies := some ["A"] } ] }

/-- Environment whose decomposition is cyclic and whose collaborators all
succeed. -/
def envCyclic : OrchestratorEnv :=
  { llmDecomposition := .ok rawCyclic,
    createIssue := .ok 1,
    createSubIssue := fun _ => .ok 2,
    generateTest := fun _ => .ok "test code",
    createTestPR := fun _ _ => .ok 3,
    generateSolution := fun _ _ => .ok goodSol,
    createSolutionPR := fun _ _ => .ok 4,
    composeSolutions := fun _ => .ok "composed",
    addComment := .ok (),
    maxSubtasks := 10,
    maxAttempts := 1 }

/-- The decomposition stored by the cyclic run. -/
def cyclicDecomposition : Decomposition := decompose 10 "task" (.ok rawCyclic)

/-- C7 counterexample: the workflow stores a decomposition on which the
TaskGraph ordering/validation fails with a circular-dependency error, yet
the run transitions past `decomposition` through every later phase up to
`completed` — the coordinator never validates the graph. -/
theorem orch_claim_validation_gate_cex :
    (solve envCyclic "task").decomposition = some cyclicDecomposition ∧
      getSubtasksInOrder cyclicDecomposition.subtasks =
        .error (.circular "A") ∧
      (solve envCyclic "task").trace =
        [Phase.decomposition, Phase.issue_creation, Phase.test_generation,
          Phase.solution_search, Phase.solution_composition,
          Phase.completed] := by
  decide

/-- C7 (amended): for every environment and task, the coordinator
transitions from `decomposition` to `issue_creation` — the decomposition
phase only calls `decompose` and stores the result, performing no
validation or ordering, so a dependency cycle in the decomposed subtask set
never prevents the transition; only a thrown error in a phase stops later
phases (setting the phase to `failed`). -/
theorem orch_claim_validation_gate (env : OrchestratorEnv) (desc : String) :
    ∃ rest, (solve env desc).trace =
      Phase.decomposition :: Phase.issue_creation :: rest := by
  cases hci : env.createIssue with
  | error e =>
    exact ⟨[Phase.failed], by
      simp [solve, executeDecomposition, executeIssueCreation, enterPhase,
        initialWorkflowState, hci]⟩
  | ok n =>
    cases hcs : createSubIssues env
        (decompose env.maxSubtasks desc env.llmDecomposition).subtasks with
    | error e =>
      exact ⟨[Phase.failed], by
        simp [solve, executeDecomposition, executeIssueCreation, enterPhase,
          initialWorkflowState, hci, hcs]⟩
    | ok subs =>
      by_cases hempty : searchSolutions env (generateTests env subs) = []
      · exact ⟨[Phase.test_generation, Phase.solution_search,
          Phase.solution_composition, Phase.failed], by
        simp [solve, executeDecomposition, executeIssueCreation,
          executeTestGeneration, executeSolutionSearch,
          executeSolutionComposition, enterPhase, initialWorkflowState,
          hci, hcs, hempty]⟩
      · cases hcomp : env.composeSolutions
            ((searchSolutions env (generateTests env subs)).map (·.2)) with
        | error e =>
          exact ⟨[Phase.test_generation, Phase.solution_search,
            Phase.solution_composition, Phase.failed], by
          simp [solve, executeDecomposition, executeIssueCreation,
            executeTestGeneration, executeSolutionSearch,
            executeSolutionComposition, enterPhase, initialWorkflowState,
            hci, hcs, hempty, hcomp]⟩
        | ok comp =>
          cases hcomment : env.addComment with
          | error e =>
            exact ⟨[Phase.test_generation, Phase.solution_search,
              Phase.solution_composition, Phase.completed, Phase.failed], by
            simp [solve, executeDecomposition, executeIssueCreation,
              executeTestGeneration, executeSolutionSearch,
              executeSolutionComposition, completeWorkflow, enterPhase,
              initialWorkflowState, hci, hcs, hempty, hcomp, hcomment]⟩
          | ok u =>
            exact ⟨[Phase.test_generation, Phase.solution_search,
              Phase.solution_composition, Phase.completed], by
            simp [solve, executeDecomposition, executeIssueCreation,
              executeTestGeneration, executeSolutionSearch,
              executeSolutionComposition, completeWorkflow, enterPhase,
              initialWorkflowState, hci, hcs, hempty, hcomp, hcomment]⟩

end OrchestratorClaims

end ProblemSolving
